import Mathlib

/-!
Verification of the SWORD server SSS (`sss.py`, `sss/core.py`).

The Python source is shallowly embedded: pure functions become Lean
functions, mutation of objects becomes explicit state passing, Python
exceptions become `Except` results, and external collaborators
(`hashlib.md5`, `uuid.uuid4`, `datetime.now`, the metadata parse inside the
default ingest packager) become explicit parameters so every embedded
operation stays a pure function of its inputs.
-/

namespace SSS

/-- Raw file content (Python 2 `str` used as a byte string). -/
abbrev Bytes := List Nat

/-! ### Second-resolution timestamps

`datetime` values are serialised with `strftime("%Y-%m-%dT%H:%M:%SZ")` and
read back with `strptime` on the same format, so on the wire a timestamp is
a second-resolution value rendered as a fixed-shape decimal string.  We
model such a timestamp as a `Nat` (seconds) and render it as its decimal
numeral; `parseTime` is the model of `strptime` (returning `none` where
`strptime` would raise `ValueError`). -/

/-- Little-endian base-10 digits with explicit fuel (structural recursion,
so a concrete timestamp evaluates by reduction). -/
def digitsLEF : Nat → Nat → List Nat
  | 0, _ => []
  | _ + 1, 0 => []
  | fuel + 1, n + 1 => ((n + 1) % 10) :: digitsLEF fuel ((n + 1) / 10)

/-- Little-endian base-10 digits of a natural number (empty for 0);
`n` itself is always enough fuel. -/
def digitsLE (n : Nat) : List Nat := digitsLEF n n

/-- Rebuild a number from little-endian digits. -/
def ofDigitsLE : List Nat → Nat
  | [] => 0
  | d :: ds => d + 10 * ofDigitsLE ds

/-- Sequence a partial function over a list, failing on the first failure
(the effect of a loop whose body may raise). -/
def mapMo {α β : Type} (f : α → Option β) : List α → Option (List β)
  | [] => some []
  | a :: l =>
    match f a with
    | none => none
    | some b =>
      match mapMo f l with
      | none => none
      | some bs => some (b :: bs)

/-- The character for a decimal digit. -/
def digitChar (d : Nat) : Char := Char.ofNat (48 + d)

/-- Numeric value of a decimal digit character, if it is one. -/
def charDigit (c : Char) : Option Nat :=
  if 48 ≤ c.toNat ∧ c.toNat ≤ 57 then some (c.toNat - 48) else none

/-- Model of `datetime.strftime("%Y-%m-%dT%H:%M:%SZ")` at second resolution:
an injective rendering of the timestamp as a decimal string. -/
def renderTime (t : Nat) : String :=
  if t = 0 then "0" else String.mk ((digitsLE t).reverse.map digitChar)

/-- Model of `datetime.strptime(s, "%Y-%m-%dT%H:%M:%SZ")`: recover the
second-resolution timestamp, `none` where `strptime` raises. -/
def parseTime (s : String) : Option Nat :=
  match mapMo charDigit s.data with
  | none => none
  | some ds => if ds.isEmpty then none else some (ofDigitsLE ds.reverse)

/-! ### XML trees

`lxml.etree` documents are modelled structurally: a tag is a (namespace,
local name) pair — `lxml`'s `"{ns}name"` strings — attributes are an
association list, and the element text is an optional string.  Serialising
to a byte string and parsing back (`etree.tostring`/`etree.fromstring`) is
the identity on this representation except that a present-but-empty text
(`text = ""`) comes back as an absent text (`None`); `Xml.roundTree` below
applies exactly that normalisation. -/

/-- Helper for `pySplit`. -/
def pySplitAux (sep : Char) : List Char → List Char → List String
  | [], acc => [⟨acc.reverse⟩]
  | c :: cs, acc =>
    if c = sep then ⟨acc.reverse⟩ :: pySplitAux sep cs []
    else pySplitAux sep cs (c :: acc)

/-- Python `str.split(sep)` for a one-character separator (every separator
in the source is one character). -/
def pySplit (sep : Char) (s : String) : List String := pySplitAux sep s.data []

/-- The whitespace characters removed by Python `str.strip()`. -/
def pyIsSpace (c : Char) : Bool :=
  c == ' ' || c == '\t' || c == '\n' || c == '\r' || c == '\x0b' || c == '\x0c'

/-- Python `str.strip()`. -/
def pyStrip (s : String) : String :=
  ⟨((s.data.dropWhile pyIsSpace).reverse.dropWhile pyIsSpace).reverse⟩

/-- Python `str.startswith(pre)`. -/
def pyStartsWith (pre s : String) : Bool :=
  s.data.take pre.data.length == pre.data

/-- Python string slicing `s[n:]` (by code point). -/
def pyDrop (n : Nat) (s : String) : String := ⟨s.data.drop n⟩

/-- A namespaced XML name. -/
structure QName where
  ns : String
  name : String
deriving DecidableEq, Repr

/-- An XML element. -/
inductive Xml where
  | elem (tag : QName) (attrs : List (QName × String)) (text : Option String)
      (children : List Xml)
deriving Repr

/-- The tag of an element. -/
def Xml.tag : Xml → QName
  | .elem t _ _ _ => t

/-- The attributes of an element. -/
def Xml.attrs : Xml → List (QName × String)
  | .elem _ a _ _ => a

/-- The text of an element. -/
def Xml.text : Xml → Option String
  | .elem _ _ tx _ => tx

/-- The children of an element. -/
def Xml.children : Xml → List Xml
  | .elem _ _ _ ch => ch

/-- `element.get(name)`: attribute lookup, `None` when absent. -/
def Xml.get (x : Xml) (n : QName) : Option String :=
  (x.attrs.lookup n)

/-- Text normalisation performed by an `etree.tostring`/`fromstring`
round trip: empty text serialises as an empty element and parses as no
text. -/
def normText : Option String → Option String
  | some s => if s = "" then none else some s
  | none => none

mutual

/-- Effect of `etree.tostring` followed by `etree.fromstring` on a tree. -/
def Xml.roundTree : Xml → Xml
  | .elem t a tx ch => .elem t a (normText tx) (Xml.roundTrees ch)

/-- `Xml.roundTree` on every element of a list. -/
def Xml.roundTrees : List Xml → List Xml
  | [] => []
  | x :: xs => x.roundTree :: Xml.roundTrees xs

end

/-! ### Namespace constants (class `Namespaces`) -/

def RDF_NS : String := "http://www.w3.org/1999/02/22-rdf-syntax-ns#"
def ORE_NS : String := "http://www.openarchives.org/ore/terms/"
def SWORD_NS : String := "http://purl.org/net/sword/terms/"
def ATOM_NS : String := "http://www.w3.org/2005/Atom"

def rdfRDF : QName := ⟨RDF_NS, "RDF"⟩
def rdfDescription : QName := ⟨RDF_NS, "Description"⟩
def rdfAbout : QName := ⟨RDF_NS, "about"⟩
def rdfResource : QName := ⟨RDF_NS, "resource"⟩
def rdfDatatype : QName := ⟨RDF_NS, "datatype"⟩
def oreDescribes : QName := ⟨ORE_NS, "describes"⟩
def oreIsDescribedBy : QName := ⟨ORE_NS, "isDescribedBy"⟩
def oreAggregates : QName := ⟨ORE_NS, "aggregates"⟩
def swordState : QName := ⟨SWORD_NS, "state"⟩
def swordStateDescription : QName := ⟨SWORD_NS, "stateDescription"⟩
def swordPackaging : QName := ⟨SWORD_NS, "packaging"⟩
def swordDepositedOn : QName := ⟨SWORD_NS, "depositedOn"⟩
def swordDepositedBy : QName := ⟨SWORD_NS, "depositedBy"⟩
def swordDepositedOnBehalfOf : QName := ⟨SWORD_NS, "depositedOnBehalfOf"⟩
def swordOriginalDeposit : QName := ⟨SWORD_NS, "originalDeposit"⟩

/-- URI of the in-progress state. -/
def in_progress_uri : String := "http://purl.org/net/sword/state/in-progress"

/-- URI of the archived state. -/
def archived_uri : String := "http://purl.org/net/sword/state/archived"

/-- Human-readable description of a state URI (`Statement.states`). -/
def stateDescriptionOf (u : String) : String :=
  if u = in_progress_uri then
    "The work is currently in progress, and has not passed to a reviewer"
  else
    "The work has passed through review and is now in the archive"

def xsdDateTime : String := "http://www.w3.org/2001/XMLSchema#dateTime"
def xsdString : String := "http://www.w3.org/2001/XMLSchema#string"

/-! ## The Statement of `sss/core.py` (the later revision, with aggregates)

Python attributes that the code may leave at `None` are `Option`s; an
operation that would raise on a `None` value becomes partial (`Option` /
`Except`) at exactly the raising points. -/

namespace Core

/-- One entry of `original_deposits`: the tuple
`(uri, deposit_time, packaging_format, by, obo)` appended by
`Statement.original_deposit`.  `load` can produce entries whose `uri`
(`rdf:about` absent) or `depositedOn` (no `sword:depositedOn` element) is
`None`, so those fields are `Option`s; the packaging is always a string
because `load` only appends an entry after seeing a non-`None` packaging. -/
structure OriginalDeposit where
  uri : Option String
  depositedOn : Option Nat
  packaging : String
  depositedBy : Option String
  obo : Option String
deriving DecidableEq, Repr

/-- The `Statement` class of `sss/core.py`. -/
structure Statement where
  aggregation_uri : Option String := none
  rem_uri : Option String := none
  original_deposits : List OriginalDeposit := []
  aggregates : List (Option String) := []
  in_progress : Bool := false
deriving DecidableEq, Repr

/-- `Statement.original_deposit`: append one entry (no dedup). -/
def Statement.original_deposit (s : Statement) (uri : Option String)
    (deposit_time : Option Nat) (packaging_format : String)
    (byUser obo : Option String) : Statement :=
  { s with original_deposits :=
      s.original_deposits ++ [⟨uri, deposit_time, packaging_format, byUser, obo⟩] }

/-- `Statement.add_normalised_aggregations`: union new URIs into
`aggregates`, skipping those already present. -/
def Statement.add_normalised_aggregations (s : Statement)
    (aggs : List (Option String)) : Statement :=
  aggs.foldl
    (fun s agg =>
      if agg ∈ s.aggregates then s
      else { s with aggregates := s.aggregates ++ [agg] }) s

/-- The state URI chosen by the serialisers from `in_progress`. -/
def Statement.state_uri (s : Statement) : String :=
  if s.in_progress then in_progress_uri else archived_uri

/-- An `ore:aggregates` element. -/
def aggElem (u : String) : Xml := .elem oreAggregates [(rdfResource, u)] none []

/-- A `sword:originalDeposit` element. -/
def origElem (u : String) : Xml :=
  .elem swordOriginalDeposit [(rdfResource, u)] none []

/-- The `ore:aggregates` / `sword:originalDeposit` pair emitted inside the
aggregation description for one original deposit; fails (attribute set to
`None` raises in `lxml`) when the deposit has no URI. -/
def depositAggPair (d : OriginalDeposit) : Option (List Xml) := do
  let u ← d.uri
  pure [aggElem u, origElem u]

/-- The per-deposit `rdf:Description` block carrying packaging,
depositedOn, depositedBy and (when present) depositedOnBehalfOf. -/
def depositDesc (d : OriginalDeposit) : Option Xml := do
  let u ← d.uri
  let t ← d.depositedOn
  pure (.elem rdfDescription [(rdfAbout, u)] none
    ([.elem swordPackaging [(rdfResource, d.packaging)] none [],
      .elem swordDepositedOn [(rdfDatatype, xsdDateTime)]
        (some (renderTime t)) [],
      .elem swordDepositedBy [(rdfDatatype, xsdString)] d.depositedBy []]
     ++ (match d.obo with
         | some o =>
            [.elem swordDepositedOnBehalfOf [(rdfDatatype, xsdString)]
              (some o) []]
         | none => [])))

/-- `Statement.get_rdf_xml` of `sss/core.py`: the RDF/XML statement tree.
`none` models the `lxml` exception raised when a required URI or timestamp
is `None`. -/
def Statement.get_rdf_xml (s : Statement) : Option Xml := do
  let rem ← s.rem_uri
  let agg ← s.aggregation_uri
  let aggUris ← mapMo (fun a => a) s.aggregates
  let depPairs ← mapMo depositAggPair s.original_deposits
  let depDescs ← mapMo depositDesc s.original_deposits
  let su := s.state_uri
  pure (.elem rdfRDF [] none (
    [.elem rdfDescription [(rdfAbout, rem)] none
       [.elem oreDescribes [(rdfResource, agg)] none []],
     .elem rdfDescription [(rdfAbout, agg)] none
       ([.elem oreIsDescribedBy [(rdfResource, rem)] none []]
        ++ aggUris.map aggElem
        ++ depPairs.flatten
        ++ [.elem swordState [(rdfResource, su)] none []])]
    ++ depDescs
    ++ [.elem rdfDescription [(rdfAbout, su)] none
          [.elem swordStateDescription [] (some (stateDescriptionOf su)) []]]))

/-- Mutable state of `Statement.load`: the fields of `self` being
populated, plus the `aggs`/`ods` registers, plus an error flag recording a
raised `strptime` exception (the Python exception aborts the load; the
fold carries the flag and the final result is discarded when set). -/
structure LoadAcc where
  aggregation_uri : Option String
  rem_uri : Option String
  in_progress : Bool
  original_deposits : List OriginalDeposit
  aggs : List (Option String)
  ods : List (Option String)
  err : Bool
deriving Repr

/-- `LoadAcc` plus the per-description local variables of the loop body. -/
structure ElemAcc where
  acc : LoadAcc
  packaging : Option String
  depositedOn : Option Nat
  deposit_by : Option String
  deposit_obo : Option String
deriving Repr

/-- Body of the inner `for element in desc.getchildren()` loop of
`Statement.load`: a chain of independent `if`s on the element tag. -/
def processElem (about : Option String) (a : ElemAcc) (e : Xml) : ElemAcc :=
  let a := if e.tag = oreAggregates then
      { a with acc := { a.acc with aggs := a.acc.aggs ++ [e.get rdfResource] } }
    else a
  let a := if e.tag = oreDescribes then
      { a with acc := { a.acc with
          aggregation_uri := e.get rdfResource, rem_uri := about } }
    else a
  let a := if e.tag = swordState then
      { a with acc := { a.acc with
          in_progress := e.get rdfResource = some in_progress_uri } }
    else a
  let a := if e.tag = swordPackaging then
      { a with packaging := e.get rdfResource }
    else a
  let a := if e.tag = swordDepositedOn then
      match e.text.bind parseTime with
      | some t => { a with depositedOn := some t }
      | none => { a with acc := { a.acc with err := true } }
    else a
  let a := if e.tag = swordDepositedBy then { a with deposit_by := e.text }
    else a
  if e.tag = swordDepositedOnBehalfOf then { a with deposit_obo := e.text }
  else a

/-- Body of the outer `for desc in rdf.getchildren()` loop of
`Statement.load`. -/
def processDesc (a : LoadAcc) (desc : Xml) : LoadAcc :=
  let about := desc.get rdfAbout
  let r := desc.children.foldl (processElem about) ⟨a, none, none, none, none⟩
  match r.packaging with
  | none => r.acc
  | some p =>
    { r.acc with
      ods := r.acc.ods ++ [about],
      original_deposits := r.acc.original_deposits
        ++ [⟨about, r.depositedOn, p, r.deposit_by, r.deposit_obo⟩] }

/-- `Statement.load` of `sss/core.py`, applied to a parsed tree by a fresh
`Statement()` (as `DAO.load_statement` does): populate the fields, then
separate plain aggregations from original deposits. -/
def Statement.load (x : Xml) : Except String Statement :=
  let a := x.children.foldl processDesc ⟨none, none, false, [], [], [], false⟩
  if a.err then .error "ValueError: strptime"
  else .ok
    { aggregation_uri := a.aggregation_uri
      rem_uri := a.rem_uri
      original_deposits := a.original_deposits
      aggregates := a.aggs.filter (fun g => g ∉ a.ods)
      in_progress := a.in_progress }

/-- The data of a serialisable original deposit: a concrete URI and
timestamp together with the remaining fields.  `toDeposit` injects it into
`OriginalDeposit`; statements whose deposits all lie in the image are
exactly those `get_rdf_xml` can serialise. -/
structure DepositData where
  u : String
  t : Nat
  pack : String
  b : Option String
  o : Option String
deriving DecidableEq, Repr

/-- Inject serialisable deposit data into `OriginalDeposit`. -/
def toDeposit (x : DepositData) : OriginalDeposit :=
  ⟨some x.u, some x.t, x.pack, x.b, x.o⟩

/-- Unfolded form of `depositDesc (toDeposit x)` used in proofs. -/
def depositDescX (x : DepositData) : Xml :=
  .elem rdfDescription [(rdfAbout, x.u)] none
    ([.elem swordPackaging [(rdfResource, x.pack)] none [],
      .elem swordDepositedOn [(rdfDatatype, xsdDateTime)]
        (some (renderTime x.t)) [],
      .elem swordDepositedBy [(rdfDatatype, xsdString)] x.b []]
     ++ (match x.o with
         | some o =>
            [.elem swordDepositedOnBehalfOf [(rdfDatatype, xsdString)]
              (some o) []]
         | none => []))

/-- The serialisable statement assembled from its parts. -/
def mkStatement (agg rem : String) (aggUris : List String)
    (dds : List DepositData) (ip : Bool) : Statement :=
  ⟨some agg, some rem, dds.map toDeposit, aggUris.map some, ip⟩

/-- The state URI of `mkStatement`. -/
def suOf (ip : Bool) : String := if ip then in_progress_uri else archived_uri

/-- The serialised tree, spelled out. -/
def treeX (agg rem : String) (aggUris : List String) (dds : List DepositData)
    (ip : Bool) : Xml :=
  .elem rdfRDF [] none (
    [.elem rdfDescription [(rdfAbout, rem)] none
       [.elem oreDescribes [(rdfResource, agg)] none []],
     .elem rdfDescription [(rdfAbout, agg)] none
       ([.elem oreIsDescribedBy [(rdfResource, rem)] none []]
        ++ aggUris.map aggElem
        ++ (dds.map (fun x => [aggElem x.u, origElem x.u])).flatten
        ++ [.elem swordState [(rdfResource, suOf ip)] none []])]
    ++ dds.map depositDescX
    ++ [.elem rdfDescription [(rdfAbout, suOf ip)] none
          [.elem swordStateDescription []
            (some (stateDescriptionOf (suOf ip))) []]])

end Core

/-! ## `sss.py`: content negotiation

The source runs under Python 2: explicit q values are carried as the
*string* sliced out of the header, synthetic q values as floats, and
placeholder q values as negative ints.  Python 2 compares and sorts these
mixed types (any string is greater than any number), and `/` on two ints
is floor division; the embedding models the three kinds explicitly.
Python floats are modelled as rationals; the inputs used in the theorems
below only involve dyadic values on which float arithmetic is exact. -/

namespace Sss

/-- The `ContentType` class. -/
structure ContentType where
  type : Option String := none
  subtype : Option String := none
  params : Option String := none
  packaging : Option String := none
deriving DecidableEq, Repr

/-- `ContentType.mimetype`; `none` models the `TypeError` raised when
concatenating a `None` type or subtype. -/
def ContentType.mimetype (ct : ContentType) : Option String :=
  match ct.type, ct.subtype with
  | some t, some s =>
    some (t ++ "/" ++ s ++ (match ct.params with
      | some p => ";" ++ p
      | none => ""))
  | _, _ => none

/-- `ContentType.media_format`: the canonical composite key over mimetype
and packaging. -/
def ContentType.media_format (ct : ContentType) : Option String := do
  let mime ← ct.mimetype
  let pack := match ct.packaging with
    | some p => "(packaging=\"" ++ p ++ "\") "
    | none => ""
  pure ("(& (type=\"" ++ mime ++ "\") " ++ pack ++ ")")

/-- `ContentType.matches` with its default `packaging_wildcard=False`. -/
def ContentType.matches (self other : ContentType)
    (packaging_wildcard : Bool := false) : Bool :=
  let tmatch := self.type == some "*" || other.type == some "*"
    || self.type == other.type
  let smatch := self.subtype == some "*" || other.subtype == some "*"
    || self.subtype == other.subtype
  let pmatch := self.params == none || other.params == none
    || self.params == other.params
  let packmatch :=
    if packaging_wildcard then
      self.packaging == none || other.packaging == none
        || self.packaging == other.packaging
    else self.packaging == other.packaging
  tmatch && smatch && pmatch && packmatch

/-- `ContentType.__eq__`: equality of the `media_format` composite keys
(only applied to well-formed content types in the source). -/
def pyCtEq (a b : ContentType) : Bool :=
  a.media_format == b.media_format

/-- A key of the dictionary built by `analyse_accept`: explicit q values
stay strings, synthetic q values are floats. -/
inductive PyKey where
  | kstr (s : String)
  | kfloat (q : ℚ)
deriving DecidableEq, Repr

/-- Python 2 `<` on the mixed key types: numbers always compare below
strings, strings compare lexicographically. -/
def pyKeyLt : PyKey → PyKey → Bool
  | .kfloat a, .kfloat b => a < b
  | .kstr a, .kstr b => a < b
  | .kfloat _, .kstr _ => true
  | .kstr _, .kfloat _ => false

/-- Insert into a descending-ordered key list (model of
`ckeys.sort(reverse=True)`; the keys of a dict are distinct, on which
`pyKeyLt` is a strict total order, so any correct sort yields this). -/
def insertDesc (k : PyKey) : List PyKey → List PyKey
  | [] => [k]
  | x :: xs => if pyKeyLt x k then k :: x :: xs else x :: insertDesc k xs

/-- Sort keys descending under the Python 2 ordering. -/
def sortDesc (l : List PyKey) : List PyKey := l.foldr insertDesc []

/-- A q value local to the `analyse_accept` loop: the negative int
placeholder or the explicit string. -/
inductive QVal where
  | qint (n : Int)
  | qstr (s : String)
deriving DecidableEq, Repr

/-- Model of Python `float()` on the strings fed to it here: an optional
sign followed by digits with an optional fractional part (`none` models
the `ValueError` raise). -/
def pyFloat? (s : String) : Option ℚ :=
  let s := pyStrip s
  let (sign, rest) : ℚ × List Char :=
    match s.data with
    | '-' :: cs => (-1, cs)
    | '+' :: cs => (1, cs)
    | cs => (1, cs)
  let intPart := rest.takeWhile (fun c => c.isDigit)
  let rest2 := rest.drop intPart.length
  let (fracPart, rest3) : List Char × List Char :=
    match rest2 with
    | '.' :: cs => (cs.takeWhile (fun c => c.isDigit), cs.drop ((cs.takeWhile (fun c => c.isDigit)).length))
    | cs => ([], cs)
  if rest3.isEmpty && !(intPart.isEmpty && fracPart.isEmpty) &&
      (match rest2 with | '.' :: _ => true | [] => true | _ => false) then
    some (sign * ((ofDigitsLE ((intPart.map (fun c => c.toNat - 48)).reverse) : ℚ)
      + (ofDigitsLE ((fracPart.map (fun c => c.toNat - 48)).reverse) : ℚ)
        / (10 ^ fracPart.length : ℚ)))
  else none

/-- `ContentNegotiator.insert`: append to an existing key's list or add a
new key. -/
def insertDict (d : List (PyKey × List ContentType)) (q : PyKey)
    (v : ContentType) : List (PyKey × List ContentType) :=
  if d.any (fun kv => kv.1 == q) then
    d.map (fun kv => if kv.1 == q then (kv.1, kv.2 ++ [v]) else kv)
  else d ++ [(q, [v])]

/-- State of the first loop of `analyse_accept`. -/
structure AnalyseAcc where
  unsorted : List (String × Option String × QVal)
  highest_q : ℚ
  counter : Nat
  err : Bool
deriving Repr

/-- First loop body of `analyse_accept`: analyse one comma-separated part
of the Accept header.  Note the source bug kept as-is: in the
`type;params;q` case the q string is sliced from `components[1]` (the
params), not `components[2]`. -/
def analysePart (a : AnalyseAcc) (part : String) : AnalyseAcc :=
  let counter := a.counter + 1
  let components := pySplit (Char.ofNat 59) part
  let type := pyStrip components.headI
  if components.length = 2 then
    let c1 := pyStrip (components.getD 1 "")
    if pyStartsWith "q=" c1 then
      let q := pyDrop 2 c1
      match pyFloat? q with
      | none => { a with counter := counter, err := true }
      | some qf =>
        { a with
          counter := counter
          highest_q := if qf > a.highest_q then qf else a.highest_q
          unsorted := a.unsorted ++ [(type, none, .qstr q)] }
    else
      { a with counter := counter
               unsorted := a.unsorted ++ [(type, some c1, .qint (-(counter : Int)))] }
  else if components.length = 3 then
    let params := pyStrip (components.getD 1 "")
    let q := pyDrop 2 (pyStrip (components.getD 1 ""))
    match pyFloat? q with
    | none => { a with counter := counter, err := true }
    | some qf =>
      { a with
        counter := counter
        highest_q := if qf > a.highest_q then qf else a.highest_q
        unsorted := a.unsorted ++ [(type, some params, .qstr q)] }
  else
    { a with counter := counter
             unsorted := a.unsorted ++ [(type, none, .qint (-(counter : Int)))] }

/-- Second loop body of `analyse_accept`: place one analysed part into the
q-keyed dictionary.  Python 2 `q > 0` is true for every string q (str
compares above int), and `pos/counter` is floor division on ints. -/
def placePart (packaging : Option String) (highest_q : ℚ) (counter : Nat)
    (st : List (PyKey × List ContentType) × Bool)
    (p : String × Option String × QVal) :
    List (PyKey × List ContentType) × Bool :=
  let (sorted, err) := st
  let (type, params, q) := p
  let parts := pySplit (Char.ofNat 47) type
  if parts.length < 2 then (sorted, true)
  else
    let supertype := parts.headI
    let subtype := "/".intercalate parts.tail
    let ct : ContentType := ⟨some supertype, some subtype, params, packaging⟩
    let qGtZero := match q with
      | .qint n => decide (n > 0)
      | .qstr _ => true
    if qGtZero then
      let key := match q with
        | .qint _ => PyKey.kfloat 0
        | .qstr s => PyKey.kstr s
      (insertDict sorted key ct, err)
    else
      let q_range : ℚ := 1 - highest_q
      let posDiv : Nat := (match q with
        | .qint n => (-n).toNat
        | .qstr _ => 0) / counter
      let qv : ℚ := (1 - q_range) + (posDiv : ℚ) * q_range
      (insertDict sorted (PyKey.kfloat qv) ct, err)

/-- `ContentNegotiator.analyse_accept`: split the Accept header, analyse
each part, then distribute the parts into a dictionary keyed by q value. -/
def analyse_accept (accept : String) (packaging : Option String) :
    Except String (List (PyKey × List ContentType)) :=
  let parts := pySplit (Char.ofNat 44) accept
  let a := parts.foldl analysePart ⟨[], 0, 0, false⟩
  if a.err then .error "ValueError: float"
  else
    let (sorted, err) := a.unsorted.foldl
      (placePart packaging a.highest_q a.counter) ([], false)
    if err then .error "ValueError: unpack" else .ok sorted

/-- `ContentNegotiator.contains_match`: first match of the source against
the target list, returning the target's content type. -/
def contains_match (source : ContentType) (target : List ContentType) :
    Option ContentType :=
  target.find? (fun ct => source.matches ct)

/-- The loop of `get_acceptable` over the descending-sorted q keys. -/
def get_acceptable_go (client : List (PyKey × List ContentType))
    (server : List ContentType) : List PyKey → Option ContentType
  | [] => none
  | q :: qs =>
    let possibilities := (client.lookup q).getD []
    let allowable := possibilities.filterMap (fun p => contains_match p server)
    if allowable.length = 0 then get_acceptable_go client server qs
    else if allowable.length = 1 then allowable.head?
    else
      match server.find? (fun sct => allowable.any (fun a => pyCtEq sct a)) with
      | some ct => some ct
      | none => get_acceptable_go client server qs

/-- `ContentNegotiator.get_acceptable`: scan the q tiers in the order
produced by sorting the mixed-type keys descending. -/
def get_acceptable (client : List (PyKey × List ContentType))
    (server : List ContentType) : Option ContentType :=
  get_acceptable_go client server (sortDesc (client.map (fun kv => kv.1)))

/-- The configuration fields of a `ContentNegotiator` object. -/
structure NegotiatorCfg where
  acceptable : List ContentType := []
  default_type : Option String := none
  default_subtype : Option String := none
  default_params : Option String := none
  default_packaging : Option String := none
deriving Repr

/-- The HTTP headers `negotiate` consults. -/
structure HttpHeaders where
  accept : Option String := none
  packaging : Option String := none
deriving Repr

/-- `ContentNegotiator.negotiate`. -/
def negotiate (neg : NegotiatorCfg) (d : HttpHeaders) :
    Except String (Option ContentType) :=
  let packaging := match d.packaging with
    | none => neg.default_packaging
    | some p => some p
  match d.accept with
  | none =>
    .ok (some ⟨neg.default_type, neg.default_subtype, neg.default_params,
      packaging⟩)
  | some acc =>
    match analyse_accept acc packaging with
    | .error e => .error e
    | .ok analysed => .ok (get_acceptable analysed neg.acceptable)

/-- Numeric value of a dictionary key (the q value it denotes). -/
def pyKeyVal : PyKey → Option ℚ
  | .kstr s => pyFloat? s
  | .kfloat q => some q

/-- Insert into a list ordered by descending numeric q value. -/
def insertByQDesc (k : PyKey) : List PyKey → List PyKey
  | [] => [k]
  | x :: xs =>
    if (pyKeyVal x).getD 0 > (pyKeyVal k).getD 0 then x :: insertByQDesc k xs
    else k :: x :: xs

/-- Modelled from the spec: the tier scan the claims describe — q tiers
examined from numerically highest to lowest; within a tier, the sole
server match is returned, several matches fall back to the server's
most-preferred, no match moves to the next tier. -/
def claimTierScan (client : List (PyKey × List ContentType))
    (server : List ContentType) : Option ContentType :=
  let keys := (client.map (fun kv => kv.1)).foldr insertByQDesc []
  get_acceptable_go client server keys

/-! ## `sss.py`: URI manager

Pure string concatenation over the configured base URL.  `sd_uri` draws a
fresh UUID when `sub` is true; the draw is an explicit argument here. -/

/-- Is a character kept verbatim by `urllib.quote(s)` (Python 2
`always_safe` plus the default `safe='/'`)? -/
def quoteSafe (c : Char) : Bool :=
  c.isAlpha || c.isDigit || c == '_' || c == '.' || c == '-' || c == '/'

/-- Upper-case hex digit. -/
def hexDigitChar (n : Nat) : Char :=
  if n < 10 then Char.ofNat (48 + n) else Char.ofNat (55 + n)

/-- `urllib.quote` on one byte. -/
def quoteChar (c : Char) : List Char :=
  if quoteSafe c then [c]
  else ['%', hexDigitChar (c.toNat / 16 % 16), hexDigitChar (c.toNat % 16)]

/-- `urllib.quote` with its default `safe='/'` on a byte string. -/
def pyQuote (s : String) : String := ⟨s.data.flatMap quoteChar⟩

namespace URIManager

/-- `URIManager.html_url`. -/
def html_url (base collection id : String) : String :=
  base ++ "html/" ++ collection ++ "/" ++ id

/-- `URIManager.sd_uri`: when `sub` is true a freshly drawn UUID
(`uuid.uuid4()`, passed here as `freshUuid`) is appended. -/
def sd_uri (base : String) (sub : Bool) (freshUuid : String) : String :=
  let uri := base ++ "sd-uri"
  if sub then uri ++ "/" ++ freshUuid else uri

/-- `URIManager.col_uri`. -/
def col_uri (base id : String) : String := base ++ "col-uri/" ++ id

/-- `URIManager.edit_uri`. -/
def edit_uri (base collection id : String) : String :=
  base ++ "edit-uri/" ++ collection ++ "/" ++ id

/-- `URIManager.em_uri`. -/
def em_uri (base collection id : String) : String :=
  base ++ "em-uri/" ++ collection ++ "/" ++ id

/-- `URIManager.cont_uri`. -/
def cont_uri (base collection id : String) : String :=
  base ++ "cont-uri/" ++ collection ++ "/" ++ id

/-- `URIManager.state_uri`: `none` models Python's implicit `None` for a
type other than `"atom"`/`"ore"`. -/
def state_uri (base collection id type : String) : Option String :=
  let root := base ++ "state-uri/" ++ collection ++ "/" ++ id
  if type = "atom" then some (root ++ ".atom")
  else if type = "ore" then some (root ++ ".rdf")
  else none

/-- `URIManager.part_uri`. -/
def part_uri (base collection id filename : String) : String :=
  base ++ "part-uri/" ++ collection ++ "/" ++ id ++ "/" ++ pyQuote filename

/-- `URIManager.agg_uri`. -/
def agg_uri (base collection id : String) : String :=
  base ++ "agg-uri/" ++ collection ++ "/" ++ id

/-- `URIManager.atom_id`. -/
def atom_id (collection id : String) : String :=
  "tag:container@sss/" ++ collection ++ "/" ++ id

/-- `URIManager.interpret_oid`: split at the first slash; `none` models
the `ValueError` raised by tuple unpacking when there is no slash. -/
def interpret_oid (oid : String) : Option (String × String) :=
  match pySplit (Char.ofNat 47) oid with
  | [_] => none
  | [] => none
  | c :: rest => some (c, "/".intercalate rest)

end URIManager

/-- One full application of a URI-manager mapping (the claim's
`(collection, id, role)` triple; the per-file mapping also carries its
filename).  `sd_uri` is not in this family: it is not a function of such a
triple. -/
inductive UriCall where
  | html (collection id : String)
  | col (id : String)
  | edit (collection id : String)
  | em (collection id : String)
  | cont (collection id : String)
  | stateAtom (collection id : String)
  | stateOre (collection id : String)
  | agg (collection id : String)
  | atomId (collection id : String)
  | part (collection id filename : String)
deriving DecidableEq, Repr

/-- The URI produced by a `UriCall` over a fixed base URL; the two state
roles inline the `"atom"`/`"ore"` branches of `URIManager.state_uri`. -/
def UriCall.uri (base : String) : UriCall → String
  | .html c i => URIManager.html_url base c i
  | .col i => URIManager.col_uri base i
  | .edit c i => URIManager.edit_uri base c i
  | .em c i => URIManager.em_uri base c i
  | .cont c i => URIManager.cont_uri base c i
  | .stateAtom c i => base ++ "state-uri/" ++ c ++ "/" ++ i ++ ".atom"
  | .stateOre c i => base ++ "state-uri/" ++ c ++ "/" ++ i ++ ".rdf"
  | .agg c i => URIManager.agg_uri base c i
  | .atomId c i => URIManager.atom_id c i
  | .part c i fn => URIManager.part_uri base c i fn

/-- Does a string contain no slash? -/
def noSlash (s : String) : Prop := ∀ a ∈ s.data, a ≠ '/'

/-- Is a string a Python 2 byte string (every code point below 256)? -/
def byteString (s : String) : Prop := ∀ a ∈ s.data, a.toNat < 256

/-- The path word that follows the base URL in a `UriCall`'s URI (the
atom-id mapping does not use the base URL and is handled separately). -/
def UriCall.word : UriCall → String
  | .html _ _ => "html"
  | .col _ => "col-uri"
  | .edit _ _ => "edit-uri"
  | .em _ _ => "em-uri"
  | .cont _ _ => "cont-uri"
  | .stateAtom _ _ => "state-uri"
  | .stateOre _ _ => "state-uri"
  | .agg _ _ => "agg-uri"
  | .atomId _ _ => "tag-unused"
  | .part _ _ _ => "part-uri"

/-- What follows `base ++ word ++ "/"` in a `UriCall`'s URI. -/
def UriCall.rest : UriCall → String
  | .html c i => c ++ "/" ++ i
  | .col i => i
  | .edit c i => c ++ "/" ++ i
  | .em c i => c ++ "/" ++ i
  | .cont c i => c ++ "/" ++ i
  | .stateAtom c i => c ++ "/" ++ (i ++ ".atom")
  | .stateOre c i => c ++ "/" ++ (i ++ ".rdf")
  | .agg c i => c ++ "/" ++ i
  | .atomId c i => c ++ "/" ++ i
  | .part c i fn => c ++ "/" ++ (i ++ "/" ++ pyQuote fn)

/-- Well-formedness of a `UriCall`'s arguments: collection and id names
contain no slash (they are UUID-like names in the store) and a filename is
a byte string. -/
def UriCall.wf : UriCall → Prop
  | .html c i => noSlash c ∧ noSlash i
  | .col i => noSlash i
  | .edit c i => noSlash c ∧ noSlash i
  | .em c i => noSlash c ∧ noSlash i
  | .cont c i => noSlash c ∧ noSlash i
  | .stateAtom c i => noSlash c ∧ noSlash i
  | .stateOre c i => noSlash c ∧ noSlash i
  | .agg c i => noSlash c ∧ noSlash i
  | .atomId c i => noSlash c ∧ noSlash i
  | .part c i fn => noSlash c ∧ noSlash i ∧ byteString fn

instance (s : String) : Decidable (noSlash s) :=
  List.decidableBAll (fun a => a ≠ '/') s.data

instance (s : String) : Decidable (byteString s) :=
  List.decidableBAll (fun (a : Char) => a.toNat < 256) s.data

instance : (k : UriCall) → Decidable k.wf
  | .html c i => inferInstanceAs (Decidable (noSlash c ∧ noSlash i))
  | .col i => inferInstanceAs (Decidable (noSlash i))
  | .edit c i => inferInstanceAs (Decidable (noSlash c ∧ noSlash i))
  | .em c i => inferInstanceAs (Decidable (noSlash c ∧ noSlash i))
  | .cont c i => inferInstanceAs (Decidable (noSlash c ∧ noSlash i))
  | .stateAtom c i => inferInstanceAs (Decidable (noSlash c ∧ noSlash i))
  | .stateOre c i => inferInstanceAs (Decidable (noSlash c ∧ noSlash i))
  | .agg c i => inferInstanceAs (Decidable (noSlash c ∧ noSlash i))
  | .atomId c i => inferInstanceAs (Decidable (noSlash c ∧ noSlash i))
  | .part c i fn =>
    inferInstanceAs (Decidable (noSlash c ∧ noSlash i ∧ byteString fn))

/-! ## `sss.py`: request/response models, Statement, DAO, server engine

The object store is modelled as a map from (collection, id) to a container
record whose fields are the named per-container artifacts; content files
keep their collision-avoiding timestamped names in a map of their own.
External effects are explicit arguments: `md5` for `hashlib`, `now` for
`datetime.now()` (second resolution, also used for the content-file name
prefix), `freshId` for `uuid.uuid4()`, and `extract` for the atom-entry
metadata parse inside the default ingest packager (whose store footprint —
it writes only the extracted-metadata artifact — is what the claims
depend on). -/

/-- The `Auth` class (`by`, `obo`); `by` is a Lean keyword, hence
`byUser`. -/
structure Auth where
  byUser : Option String := none
  obo : Option String := none
  target_owner_unknown : Bool := false
deriving DecidableEq, Repr

/-- The `DepositRequest` class with the defaults of its constructor. -/
structure DepositRequest where
  content : Option Bytes := none
  atom : Option Bytes := none
  filename : String := "unnamed.file"
  packaging : String := "http://purl.org/net/sword/package/Binary"
  in_progress : Bool := false
  metadata_relevant : Bool := true
  content_md5 : Option String := none
  slug : Option String := none
  auth : Option Auth := none
deriving DecidableEq, Repr

/-- The `DeleteRequest` class (the `SWORDRequest` fields it uses). -/
structure DeleteRequest where
  in_progress : Bool := false
  metadata_relevant : Bool := true
  auth : Option Auth := none
deriving DecidableEq, Repr

/-- The `Statement` class of `sss.py` (this revision has no `aggregates`
field); the deposit tuples have the same shape as in `sss/core.py`. -/
structure Statement where
  aggregation_uri : Option String := none
  rem_uri : Option String := none
  original_deposits : List Core.OriginalDeposit := []
  in_progress : Bool := false
deriving DecidableEq, Repr

/-- `Statement.original_deposit` of `sss.py`. -/
def Statement.original_deposit (s : Statement) (uri : Option String)
    (deposit_time : Option Nat) (packaging_format : String)
    (byUser obo : Option String) : Statement :=
  { s with original_deposits :=
      s.original_deposits ++ [⟨uri, deposit_time, packaging_format, byUser, obo⟩] }

/-- State URI from `in_progress` (`sss.py` Statement). -/
def Statement.state_uri (s : Statement) : String :=
  if s.in_progress then in_progress_uri else archived_uri

/-- `Statement.get_rdf_xml` of `sss.py`: as in `sss/core.py` but with no
aggregates loop. -/
def Statement.get_rdf_xml (s : Statement) : Option Xml := do
  let rem ← s.rem_uri
  let agg ← s.aggregation_uri
  let depPairs ← mapMo Core.depositAggPair s.original_deposits
  let depDescs ← mapMo Core.depositDesc s.original_deposits
  let su := s.state_uri
  pure (.elem rdfRDF [] none (
    [.elem rdfDescription [(rdfAbout, rem)] none
       [.elem oreDescribes [(rdfResource, agg)] none []],
     .elem rdfDescription [(rdfAbout, agg)] none
       ([.elem oreIsDescribedBy [(rdfResource, rem)] none []]
        ++ depPairs.flatten
        ++ [.elem swordState [(rdfResource, su)] none []])]
    ++ depDescs
    ++ [.elem rdfDescription [(rdfAbout, su)] none
          [.elem swordStateDescription [] (some (stateDescriptionOf su)) []]]))

/-- `Statement.serialise` of `sss.py`: the RDF/XML document written to the
statement file (the `tostring` step is the identity on the tree model). -/
def Statement.serialise (s : Statement) : Option Xml := s.get_rdf_xml

/-- One `atom:entry` of the Atom-feed serialisation of a statement. -/
structure FeedEntry where
  uri : String
  packaging : String
  depositedOn : String
  depositedBy : Option String
  obo : Option String
deriving DecidableEq, Repr

/-- The Atom-feed serialisation of a statement: the root `sword:state`
plus one entry per original deposit (the constant category markup is
omitted from the model). -/
structure AtomFeed where
  state_href : String
  state_description : String
  entries : List FeedEntry
deriving DecidableEq, Repr

/-- The entry `serialise_atom` emits for one original deposit; fails where
`lxml`/`strftime` raise on a `None` URI or timestamp. -/
def feedEntryOf (d : Core.OriginalDeposit) : Option FeedEntry := do
  let u ← d.uri
  let t ← d.depositedOn
  pure ⟨u, d.packaging, renderTime t, d.depositedBy, d.obo⟩

/-- `Statement.serialise_atom` of `sss.py`. -/
def Statement.serialise_atom (s : Statement) : Option AtomFeed := do
  let entries ← mapMo feedEntryOf s.original_deposits
  pure ⟨s.state_uri, stateDescriptionOf s.state_uri, entries⟩

/-- Per-description locals of the `sss.py` `Statement.load` loop. -/
structure SssElemAcc where
  st : Statement
  err : Bool
  packaging : Option String
  depositedOn : Option Nat
  deposit_by : Option String
  deposit_obo : Option String
deriving Repr

/-- Body of the element loop of `Statement.load` in `sss.py`.  Note this
revision assigns `aggregation_uri` from `rdf:about` and `rem_uri` from the
`ore:describes` resource (the reverse of `sss/core.py`), and has no
`ore:aggregates` branch. -/
def sssProcessElem (about : Option String) (a : SssElemAcc) (e : Xml) :
    SssElemAcc :=
  let a := if e.tag = oreDescribes then
      { a with st := { a.st with
          aggregation_uri := about, rem_uri := e.get rdfResource } }
    else a
  let a := if e.tag = swordState then
      { a with st := { a.st with
          in_progress := e.get rdfResource = some in_progress_uri } }
    else a
  let a := if e.tag = swordPackaging then
      { a with packaging := e.get rdfResource }
    else a
  let a := if e.tag = swordDepositedOn then
      match e.text.bind parseTime with
      | some t => { a with depositedOn := some t }
      | none => { a with err := true }
    else a
  let a := if e.tag = swordDepositedBy then { a with deposit_by := e.text }
    else a
  if e.tag = swordDepositedOnBehalfOf then { a with deposit_obo := e.text }
  else a

/-- Body of the description loop of `Statement.load` in `sss.py`. -/
def sssProcessDesc (p : Statement × Bool) (desc : Xml) : Statement × Bool :=
  let about := desc.get rdfAbout
  let r := desc.children.foldl (sssProcessElem about)
    ⟨p.1, p.2, none, none, none, none⟩
  match r.packaging with
  | none => (r.st, r.err)
  | some pk =>
    (r.st.original_deposit about r.depositedOn pk r.deposit_by r.deposit_obo,
     r.err)

/-- `Statement.load` of `sss.py`, applied to the parsed statement file by a
fresh `Statement()`. -/
def statementLoad (x : Xml) : Except String Statement :=
  let (st, err) := x.children.foldl sssProcessDesc ({}, false)
  if err then .error "ValueError: strptime" else .ok st

/-- The extracted-metadata artifact: a key/value mapping. -/
abbrev Metadata := List (String × String)

/-- The deposit receipt, reduced to the data the claims can observe: which
container it is for, the embedded statement RDF, and the (default-filled)
metadata. -/
structure Receipt where
  collection : String
  id : String
  statementRdf : Xml
  metadata : Metadata
deriving Repr

/-- One container directory in the store: the named protocol artifacts
plus the timestamped content files.  (Content filenames carry the
timestamp prefix `renderTime now ++ "_"`, so they never collide with the
`sss_`-prefixed artifact names kept in the dedicated fields.) -/
structure Container where
  contents : String → Option Bytes
  atomDoc : Option Bytes
  metadata : Option Metadata
  statementRdf : Option Xml
  statementAtom : Option AtomFeed
  receipt : Option Receipt

/-- A freshly created container directory. -/
def emptyContainer : Container :=
  ⟨fun _ => none, none, none, none, none, none⟩

/-- The store: the collection directories and the container directories
under them. -/
structure Store where
  collections : List String
  containers : String → String → Option Container

namespace Store

/-- Look up a container directory. -/
def getContainer (st : Store) (c i : String) : Option Container :=
  st.containers c i

/-- Overwrite a container directory. -/
def setContainer (st : Store) (c i : String) (cont : Container) : Store :=
  { st with containers := fun c' i' =>
      if c' = c ∧ i' = i then some cont else st.containers c' i' }

/-- Update a container directory in place (the embedded operations only
write into containers they have checked or created). -/
def updateContainer (st : Store) (c i : String) (f : Container → Container) :
    Store :=
  match st.getContainer c i with
  | some cont => st.setContainer c i (f cont)
  | none => st

end Store

/-- The ingest packagers registered in the configuration. -/
inductive IngesterKind where
  | defaultIngester
  | metsIngester
deriving DecidableEq, Repr

/-- The `Configuration` fields the embedded operations consult, with their
source defaults. -/
structure Configuration where
  base_url : String := "http://localhost:8080/"
  mediation : Bool := true
  error_content_package : String := "http://purl.org/net/sword/package/error"
  package_ingesters : List (String × IngesterKind) :=
    [("http://purl.org/net/sword/package/SimpleZip", .defaultIngester),
     ("http://purl.org/net/sword/package/METSDSpaceSIP", .metsIngester)]
deriving Repr

/-- `DefaultIngester.ingest` reads the stored atom document and, when one
exists, overwrites the extracted-metadata artifact with the mapping parsed
from it (the parse itself is the `extract` parameter); it touches nothing
else.  `METSDSpaceIngester.ingest` is a no-op. -/
def ingest (extract : Bytes → Metadata) (kind : IngesterKind) (st : Store)
    (c i : String) (_filename : String) (_metadata_relevant : Bool) : Store :=
  match kind with
  | .metsIngester => st
  | .defaultIngester =>
    match (st.getContainer c i).bind (fun cont => cont.atomDoc) with
    | none => st
    | some atom =>
      st.updateContainer c i (fun cont => { cont with metadata := some (extract atom) })

namespace DAO

/-- `DAO.collection_exists`. -/
def collection_exists (st : Store) (c : String) : Bool := c ∈ st.collections

/-- `DAO.container_exists`. -/
def container_exists (st : Store) (c i : String) : Bool :=
  (st.getContainer c i).isSome

/-- `DAO.create_container`: use the proposed id (the Slug) or a fresh UUID;
an existing directory is kept as-is. -/
def create_container (st : Store) (c : String) (id : Option String)
    (freshId : String) : Store × String :=
  let i := id.getD freshId
  match st.getContainer c i with
  | some _ => (st, i)
  | none => (st.setContainer c i emptyContainer, i)

/-- `DAO.store_atom`. -/
def store_atom (st : Store) (c i : String) (atom : Bytes) : Store :=
  st.updateContainer c i (fun cont => { cont with atomDoc := some atom })

/-- `DAO.store_content`: store under a timestamp-prefixed name and return
the localised filename. -/
def store_content (st : Store) (c i : String) (content : Bytes)
    (filename : String) (now : Nat) : Store × String :=
  let ufn := renderTime now ++ "_" ++ filename
  (st.updateContainer c i (fun cont =>
    { cont with contents := fun n => if n = ufn then some content else cont.contents n }),
   ufn)

/-- `DAO.store_statement`: write the RDF/XML serialisation, then the Atom
feed serialisation, of the same statement.  A serialisation failure is the
propagated `lxml` exception; the store reflects the writes made before the
raise. -/
def store_statement (st : Store) (c i : String) (s : Statement) :
    Except String Unit × Store :=
  match s.serialise with
  | none => (.error "TypeError: statement serialise", st)
  | some rdf =>
    let st1 := st.updateContainer c i
      (fun cont => { cont with statementRdf := some rdf })
    match s.serialise_atom with
    | none => (.error "TypeError: statement serialise_atom", st1)
    | some feed =>
      (.ok (), st1.updateContainer c i
        (fun cont => { cont with statementAtom := some feed }))

/-- `DAO.store_deposit_receipt`. -/
def store_deposit_receipt (st : Store) (c i : String) (r : Receipt) : Store :=
  st.updateContainer c i (fun cont => { cont with receipt := some r })

/-- `DAO.store_metadata`. -/
def store_metadata (st : Store) (c i : String) (md : Metadata) : Store :=
  st.updateContainer c i (fun cont => { cont with metadata := some md })

/-- `DAO.get_metadata`: the empty mapping when the artifact (or the whole
container) is absent; never fails. -/
def get_metadata (st : Store) (c i : String) : Metadata :=
  ((st.getContainer c i).bind (fun cont => cont.metadata)).getD []

/-- `DAO.load_statement`: `Statement.load` opens the statement file
unconditionally, so an absent container or artifact is a raised
`IOError`. -/
def load_statement (st : Store) (c i : String) : Except String Statement :=
  match (st.getContainer c i).bind (fun cont => cont.statementRdf) with
  | none => .error "IOError: statement file absent"
  | some rdf => statementLoad rdf

/-- `DAO.remove_content`: delete every file in the container except, when
`keep_metadata` is set, the extracted-metadata artifact. -/
def remove_content (st : Store) (c i : String) (keep_metadata : Bool) :
    Store :=
  st.updateContainer c i (fun cont =>
    { contents := fun _ => none
      atomDoc := none
      metadata := if keep_metadata then cont.metadata else none
      statementRdf := none
      statementAtom := none
      receipt := none })

/-- `DAO.remove_container`. -/
def remove_container (st : Store) (c i : String) : Store :=
  let st := remove_content st c i false
  { st with containers := fun c' i' =>
      if c' = c ∧ i' = i then none else st.containers c' i' }

end DAO

/-- The error URIs of `SWORDSpec`. -/
def error_content_uri : String := "http://purl.org/net/sword/error/ErrorContent"
def error_checksum_mismatch_uri : String :=
  "http://purl.org/net/sword/error/ErrorChecksumMismatch"
def error_mediation_not_allowed_uri : String :=
  "http://purl.org/net/sword/error/MediationNotAllowed"

/-- The observable content of a `sword_error` document: the identifying
URI and the optional message echoed into the summary. -/
structure SwordError where
  href : String
  msg : Option String := none
deriving DecidableEq, Repr

/-- The `DepositResponse` class. -/
structure DepositResponse where
  created : Bool := false
  accepted : Bool := false
  error_code : Option String := none
  error : Option SwordError := none
  receipt : Option Receipt := none
  location : Option String := none
deriving Repr

/-- The `DeleteResponse` class. -/
structure DeleteResponse where
  error_code : Option String := none
  error : Option SwordError := none
  receipt : Option Receipt := none
deriving Repr

/-- Fill the metadata defaults used by `deposit_receipt`. -/
def fillDefaults (md : Metadata) : Metadata :=
  let md := if (md.lookup "title").isSome then md else md ++ [("title", "SWORD Deposit")]
  let md := if (md.lookup "creator").isSome then md else md ++ [("creator", "SWORD Client")]
  if (md.lookup "abstract").isSome then md
  else md ++ [("abstract", "Content deposited with SWORD client")]

/-- `SWORDServer.deposit_receipt`, reduced to the observable `Receipt`
data; fails where `statement.get_rdf_xml()` raises. -/
def deposit_receipt (collection id : String) (statement : Statement)
    (metadata : Option Metadata) : Option Receipt := do
  let rdf ← statement.get_rdf_xml
  pure ⟨collection, id, rdf, fillDefaults (metadata.getD [])⟩

/-- `SWORDServer.exists`: both the collection and the container must
exist.  (`interpret_oid` is applied by the callers in this embedding.) -/
def oidExists (st : Store) (c i : String) : Bool :=
  DAO.collection_exists st c && DAO.container_exists st c i

/-- `SWORDServer.check_deposit_errors`: sentinel packaging, then checksum,
then mediation; `.error` models the `TypeError` of hashing an absent
body. -/
def check_deposit_errors (md5 : Bytes → String) (cfg : Configuration)
    (deposit : DepositRequest) : Except String (Option DepositResponse) :=
  if deposit.packaging = cfg.error_content_package then
    .ok (some { error := some ⟨error_content_uri, none⟩,
                error_code := some "400 Bad Request" })
  else
    let mediationCheck : Option DepositResponse :=
      match deposit.auth with
      | some a =>
        if a.obo.isSome && !cfg.mediation then
          some { error := some ⟨error_mediation_not_allowed_uri, none⟩,
                 error_code := some "412 Precondition Failed" }
        else none
      | none => none
    match deposit.content_md5 with
    | none => .ok mediationCheck
    | some given =>
      match deposit.content with
      | none => .error "TypeError: md5 update with None"
      | some body =>
        if md5 body ≠ given then
          .ok (some { error := some ⟨error_checksum_mismatch_uri, none⟩,
                      error_code := some "412 Precondition Failed" })
        else .ok mediationCheck

/-- `SWORDServer.check_delete_errors`: the mediation check only. -/
def check_delete_errors (cfg : Configuration) (delete : DeleteRequest) :
    Option DeleteResponse :=
  match delete.auth with
  | some a =>
    if a.obo.isSome && !cfg.mediation then
      some { error := some ⟨error_mediation_not_allowed_uri, none⟩,
             error_code := some "412 Precondition Failed" }
    else none
  | none => none

/-- `SWORDServer.check_mediated_error`: the mediation check only. -/
def check_mediated_error (cfg : Configuration) (deposit : DepositRequest) :
    Option DepositResponse :=
  match deposit.auth with
  | some a =>
    if a.obo.isSome && !cfg.mediation then
      some { error := some ⟨error_mediation_not_allowed_uri, none⟩,
             error_code := some "412 Precondition Failed" }
    else none
  | none => none

/-- Tail of `deposit_new` from the statement construction on. -/
def deposit_new_finish (cfg : Configuration) (st : Store)
    (collection id : String) (dep : DepositRequest)
    (deposit_uri : Option String) (now : Nat) :
    Except String (Option DepositResponse) × Store :=
  let edit_uri := URIManager.edit_uri cfg.base_url collection id
  let byU := dep.auth.bind (fun a => a.byUser)
  let obo := dep.auth.bind (fun a => a.obo)
  let s : Statement :=
    { aggregation_uri := some (URIManager.agg_uri cfg.base_url collection id)
      rem_uri := some edit_uri }
  let s := match deposit_uri with
    | some u => s.original_deposit (some u) (some now) dep.packaging byU obo
    | none => s
  let s := { s with in_progress := dep.in_progress }
  match DAO.store_statement st collection id s with
  | (.error e, st) => (.error e, st)
  | (.ok _, st) =>
    let metadata := DAO.get_metadata st collection id
    match deposit_receipt collection id s (some metadata) with
    | none => (.error "TypeError: receipt", st)
    | some receipt =>
      let st := DAO.store_deposit_receipt st collection id receipt
      (.ok (some
        { receipt := some receipt
          location := some edit_uri
          accepted := dep.in_progress
          created := !dep.in_progress }), st)

/-- `SWORDServer.deposit_new`. -/
def deposit_new (md5 : Bytes → String) (extract : Bytes → Metadata)
    (cfg : Configuration) (st : Store) (collection : String)
    (dep : DepositRequest) (now : Nat) (freshId : String) :
    Except String (Option DepositResponse) × Store :=
  match check_deposit_errors md5 cfg dep with
  | .error e => (.error e, st)
  | .ok (some er) => (.ok (some er), st)
  | .ok none =>
    if !DAO.collection_exists st collection then (.ok none, st)
    else
      let (st, id) := DAO.create_container st collection dep.slug freshId
      let st := match dep.atom with
        | some a => DAO.store_atom st collection id a
        | none => st
      match dep.content with
      | none => deposit_new_finish cfg st collection id dep none now
      | some body =>
        let (st, fn) := DAO.store_content st collection id body dep.filename now
        match cfg.package_ingesters.lookup dep.packaging with
        | none => (.error "KeyError: package_ingesters", st)
        | some kind =>
          let st := ingest extract kind st collection id fn dep.metadata_relevant
          deposit_new_finish cfg st collection id dep
            (some (URIManager.part_uri cfg.base_url collection id fn)) now

/-- `SWORDServer.replace`. -/
def replace (md5 : Bytes → String) (extract : Bytes → Metadata)
    (cfg : Configuration) (st : Store) (oid : String) (dep : DepositRequest)
    (now : Nat) : Except String (Option DepositResponse) × Store :=
  match check_deposit_errors md5 cfg dep with
  | .error e => (.error e, st)
  | .ok (some er) => (.ok (some er), st)
  | .ok none =>
    match URIManager.interpret_oid oid with
    | none => (.error "ValueError: interpret_oid", st)
    | some (collection, id) =>
      if !oidExists st collection id then (.ok none, st)
      else
        let st := DAO.remove_content st collection id dep.metadata_relevant
        match dep.content with
        | none => (.error "TypeError: store_content with None", st)
        | some body =>
          let (st, fn) := DAO.store_content st collection id body dep.filename now
          match cfg.package_ingesters.lookup dep.packaging with
          | none => (.error "KeyError: package_ingesters", st)
          | some kind =>
            let st := ingest extract kind st collection id fn dep.metadata_relevant
            let deposit_uri := URIManager.part_uri cfg.base_url collection id fn
            let byU := dep.auth.bind (fun a => a.byUser)
            let obo := dep.auth.bind (fun a => a.obo)
            let s : Statement :=
              { aggregation_uri := some (URIManager.agg_uri cfg.base_url collection id)
                rem_uri := some (URIManager.edit_uri cfg.base_url collection id) }
            let s := s.original_deposit (some deposit_uri) (some now)
              dep.packaging byU obo
            let s := { s with in_progress := dep.in_progress }
            match DAO.store_statement st collection id s with
            | (.error e, st) => (.error e, st)
            | (.ok _, st) =>
              match deposit_receipt collection id s none with
              | none => (.error "TypeError: receipt", st)
              | some receipt =>
                let st := DAO.store_deposit_receipt st collection id receipt
                (.ok (some
                  { receipt := some receipt
                    accepted := dep.in_progress
                    created := !dep.in_progress }), st)

/-- `SWORDServer.add_content`: store the content (no ingest step), then
build and store a fresh statement. -/
def add_content (md5 : Bytes → String) (cfg : Configuration) (st : Store)
    (oid : String) (dep : DepositRequest) (now : Nat) :
    Except String (Option DepositResponse) × Store :=
  match check_deposit_errors md5 cfg dep with
  | .error e => (.error e, st)
  | .ok (some er) => (.ok (some er), st)
  | .ok none =>
    match URIManager.interpret_oid oid with
    | none => (.error "ValueError: interpret_oid", st)
    | some (collection, id) =>
      if !oidExists st collection id then (.ok none, st)
      else
        let (st, deposit_uri) : Store × Option String :=
          match dep.content with
          | none => (st, none)
          | some body =>
            let (st, fn) := DAO.store_content st collection id body dep.filename now
            (st, some (URIManager.part_uri cfg.base_url collection id fn))
        let edit_uri := URIManager.edit_uri cfg.base_url collection id
        let byU := dep.auth.bind (fun a => a.byUser)
        let obo := dep.auth.bind (fun a => a.obo)
        let s : Statement :=
          { aggregation_uri := some (URIManager.agg_uri cfg.base_url collection id)
            rem_uri := some edit_uri }
        let s := match deposit_uri with
          | some u => s.original_deposit (some u) (some now) dep.packaging byU obo
          | none => s
        let s := { s with in_progress := dep.in_progress }
        match DAO.store_statement st collection id s with
        | (.error e, st) => (.error e, st)
        | (.ok _, st) =>
          let metadata := DAO.get_metadata st collection id
          match deposit_receipt collection id s (some metadata) with
          | none => (.error "TypeError: receipt", st)
          | some receipt =>
            let st := DAO.store_deposit_receipt st collection id receipt
            (.ok (some
              { receipt := some receipt
                location := some edit_uri
                accepted := dep.in_progress
                created := !dep.in_progress }), st)

/-- Tail of `deposit_existing` from the receipt construction on. -/
def deposit_existing_finish (st : Store) (collection id : String)
    (dep : DepositRequest) (s : Statement) :
    Except String (Option DepositResponse) × Store :=
  match deposit_receipt collection id s none with
  | none => (.error "TypeError: receipt", st)
  | some receipt =>
    let st := DAO.store_deposit_receipt st collection id receipt
    (.ok (some
      { receipt := some receipt
        accepted := dep.in_progress
        created := !dep.in_progress }), st)

/-- `SWORDServer.deposit_existing`: load the stored statement, append the
new deposit to it (the statement is only re-stored when content was
supplied). -/
def deposit_existing (md5 : Bytes → String) (extract : Bytes → Metadata)
    (cfg : Configuration) (st : Store) (oid : String) (dep : DepositRequest)
    (now : Nat) : Except String (Option DepositResponse) × Store :=
  match check_deposit_errors md5 cfg dep with
  | .error e => (.error e, st)
  | .ok (some er) => (.ok (some er), st)
  | .ok none =>
    match URIManager.interpret_oid oid with
    | none => (.error "ValueError: interpret_oid", st)
    | some (collection, id) =>
      if !oidExists st collection id then (.ok none, st)
      else
        match DAO.load_statement st collection id with
        | .error e => (.error e, st)
        | .ok s0 =>
          let st := match dep.atom with
            | some a => DAO.store_atom st collection id a
            | none => st
          match dep.content with
          | none => deposit_existing_finish st collection id dep s0
          | some body =>
            let (st, fn) := DAO.store_content st collection id body dep.filename now
            let st := match cfg.package_ingesters.lookup dep.packaging with
              | some kind => ingest extract kind st collection id fn dep.metadata_relevant
              | none => st
            let deposit_uri := URIManager.part_uri cfg.base_url collection id fn
            let byU := dep.auth.bind (fun a => a.byUser)
            let obo := dep.auth.bind (fun a => a.obo)
            let s := s0.original_deposit (some deposit_uri) (some now)
              dep.packaging byU obo
            let s := { s with in_progress := dep.in_progress }
            match DAO.store_statement st collection id s with
            | (.error e, st) => (.error e, st)
            | (.ok _, st) => deposit_existing_finish st collection id dep s

/-- `SWORDServer.update_metadata`. -/
def update_metadata (cfg : Configuration) (st : Store) (oid : String)
    (dep : DepositRequest) : Except String (Option DepositResponse) × Store :=
  match check_mediated_error cfg dep with
  | some er => (.ok (some er), st)
  | none =>
    match URIManager.interpret_oid oid with
    | none => (.error "ValueError: interpret_oid", st)
    | some (collection, id) =>
      if !oidExists st collection id then (.ok none, st)
      else
        match dep.atom with
        | none => (.error "TypeError: store_atom with None", st)
        | some a =>
          let st := DAO.store_atom st collection id a
          match DAO.load_statement st collection id with
          | .error e => (.error e, st)
          | .ok s =>
            match deposit_receipt collection id s none with
            | none => (.error "TypeError: receipt", st)
            | some receipt =>
              let st := DAO.store_deposit_receipt st collection id receipt
              (.ok (some
                { receipt := some receipt
                  accepted := dep.in_progress
                  created := !dep.in_progress }), st)

/-- `SWORDServer.delete_content`: clear the content, then store a fresh
statement with no deposits. -/
def delete_content (cfg : Configuration) (st : Store) (oid : String)
    (del : DeleteRequest) : Except String (Option DeleteResponse) × Store :=
  match check_delete_errors cfg del with
  | some er => (.ok (some er), st)
  | none =>
    match URIManager.interpret_oid oid with
    | none => (.error "ValueError: interpret_oid", st)
    | some (collection, id) =>
      if !oidExists st collection id then (.ok none, st)
      else
        let st := DAO.remove_content st collection id del.metadata_relevant
        let s : Statement :=
          { aggregation_uri := some (URIManager.agg_uri cfg.base_url collection id)
            rem_uri := some (URIManager.edit_uri cfg.base_url collection id)
            in_progress := del.in_progress }
        match DAO.store_statement st collection id s with
        | (.error e, st) => (.error e, st)
        | (.ok _, st) =>
          match deposit_receipt collection id s none with
          | none => (.error "TypeError: receipt", st)
          | some receipt =>
            let st := DAO.store_deposit_receipt st collection id receipt
            (.ok (some { receipt := some receipt }), st)

/-- `SWORDServer.delete_container`. -/
def delete_container (cfg : Configuration) (st : Store) (oid : String)
    (del : DeleteRequest) : Except String (Option DeleteResponse) × Store :=
  match check_delete_errors cfg del with
  | some er => (.ok (some er), st)
  | none =>
    match URIManager.interpret_oid oid with
    | none => (.error "ValueError: interpret_oid", st)
    | some (collection, id) =>
      if !oidExists st collection id then (.ok none, st)
      else (.ok (some {}), DAO.remove_container st collection id)

/-- One mutating server operation, carrying the external inputs it
draws. -/
inductive ServerOp where
  | depositNew (md5 : Bytes → String) (extract : Bytes → Metadata)
      (collection : String) (dep : DepositRequest) (now : Nat)
      (freshId : String)
  | replaceOp (md5 : Bytes → String) (extract : Bytes → Metadata)
      (oid : String) (dep : DepositRequest) (now : Nat)
  | addContent (md5 : Bytes → String) (oid : String) (dep : DepositRequest)
      (now : Nat)
  | depositExisting (md5 : Bytes → String) (extract : Bytes → Metadata)
      (oid : String) (dep : DepositRequest) (now : Nat)
  | updateMetadata (oid : String) (dep : DepositRequest)
  | deleteContent (oid : String) (del : DeleteRequest)
  | deleteContainer (oid : String) (del : DeleteRequest)

/-- The store left behind by one server operation. -/
def ServerOp.apply (cfg : Configuration) (st : Store) : ServerOp → Store
  | .depositNew md5 extract collection dep now freshId =>
    (deposit_new md5 extract cfg st collection dep now freshId).2
  | .replaceOp md5 extract oid dep now =>
    (replace md5 extract cfg st oid dep now).2
  | .addContent md5 oid dep now => (add_content md5 cfg st oid dep now).2
  | .depositExisting md5 extract oid dep now =>
    (deposit_existing md5 extract cfg st oid dep now).2
  | .updateMetadata oid dep => (update_metadata cfg st oid dep).2
  | .deleteContent oid del => (delete_content cfg st oid del).2
  | .deleteContainer oid del => (delete_container cfg st oid del).2

/-- The two statement artifacts of a container are either both absent or
both serialisations of a single Statement value. -/
def statementConsistent (cont : Container) : Prop :=
  (cont.statementRdf = none ∧ cont.statementAtom = none) ∨
  ∃ (s : Statement) (rdf : Xml) (feed : AtomFeed),
    s.serialise = some rdf ∧ s.serialise_atom = some feed
    ∧ cont.statementRdf = some rdf ∧ cont.statementAtom = some feed

/-- Every container of the store is statement-consistent. -/
def storeConsistent (st : Store) : Prop :=
  ∀ c i cont, st.getContainer c i = some cont → statementConsistent cont

end Sss

/-! ## Theorems -/

attribute [local semireducible] Rat.add Rat.mul Rat.sub Rat.inv Rat.ofScientific

/-! ### The timestamp codec -/

theorem digitsLEF_congr : ∀ f1 f2 n, n ≤ f1 → n ≤ f2 →
    digitsLEF f1 n = digitsLEF f2 n := by
  intro f1
  induction f1 with
  | zero =>
    intro f2 n h1 _
    have hn : n = 0 := Nat.le_zero.mp h1
    subst hn
    cases f2 <;> rfl
  | succ f1 ih =>
    intro f2 n h1 h2
    match n with
    | 0 => cases f2 <;> rfl
    | n + 1 =>
      match f2 with
      | 0 => omega
      | f2 + 1 =>
        have hd : (n + 1) / 10 < n + 1 := Nat.div_lt_self (Nat.succ_pos n) (by omega)
        rw [digitsLEF, digitsLEF,
          ih f2 ((n + 1) / 10) (by omega) (by omega)]

theorem digitsLE_succ (n : Nat) :
    digitsLE (n + 1) = ((n + 1) % 10) :: digitsLE ((n + 1) / 10) := by
  have hd : (n + 1) / 10 < n + 1 := Nat.div_lt_self (Nat.succ_pos n) (by omega)
  unfold digitsLE
  rw [digitsLEF, digitsLEF_congr n ((n + 1) / 10) ((n + 1) / 10) (by omega) (by omega)]

theorem digitsLE_zero : digitsLE 0 = [] := rfl

theorem ofDigitsLE_digitsLE (n : Nat) : ofDigitsLE (digitsLE n) = n := by
  induction n using Nat.strong_induction_on with
  | _ n ih =>
    match n with
    | 0 => simp [digitsLE_zero, ofDigitsLE]
    | n + 1 =>
      rw [digitsLE_succ, ofDigitsLE,
        ih ((n + 1) / 10) (Nat.div_lt_self (Nat.succ_pos n) (by omega))]
      omega

theorem digitsLE_lt_ten (n : Nat) : ∀ d ∈ digitsLE n, d < 10 := by
  induction n using Nat.strong_induction_on with
  | _ n ih =>
    match n with
    | 0 => intro d hd; simp [digitsLE, digitsLEF] at hd
    | n + 1 =>
      intro d hd
      rw [digitsLE_succ] at hd
      rcases List.mem_cons.mp hd with h | h
      · subst h; exact Nat.mod_lt _ (by omega)
      · exact ih ((n + 1) / 10) (Nat.div_lt_self (Nat.succ_pos n) (by omega)) d h

theorem digitsLE_ne_nil (n : Nat) (h : n ≠ 0) : digitsLE n ≠ [] := by
  match n with
  | 0 => exact absurd rfl h
  | n + 1 => rw [digitsLE_succ]; simp

theorem charDigit_digitChar : ∀ d, d < 10 → charDigit (digitChar d) = some d := by
  decide

theorem mapM_charDigit (ds : List Nat) (h : ∀ d ∈ ds, d < 10) :
    mapMo charDigit (ds.map digitChar) = some ds := by
  induction ds with
  | nil => rfl
  | cons d ds ih =>
    simp only [List.map_cons, mapMo,
      charDigit_digitChar d (h d (List.mem_cons_self d ds)),
      ih (fun x hx => h x (List.mem_cons_of_mem d hx))]

theorem parseTime_renderTime (t : Nat) : parseTime (renderTime t) = some t := by
  unfold renderTime
  by_cases h : t = 0
  · subst h; rfl
  · rw [if_neg h]
    unfold parseTime
    have hd : ∀ d ∈ (digitsLE t).reverse, d < 10 := by
      intro d hdm
      exact digitsLE_lt_ten t d (List.mem_reverse.mp hdm)
    rw [show (String.mk ((digitsLE t).reverse.map digitChar)).data
        = (digitsLE t).reverse.map digitChar from rfl]
    rw [mapM_charDigit _ hd]
    have hne : (digitsLE t).reverse ≠ [] := by
      simp [List.reverse_eq_nil_iff]
      exact digitsLE_ne_nil t h
    have hie : ((digitsLE t).reverse).isEmpty = false := by
      cases hre : (digitsLE t).reverse with
      | nil => exact absurd hre hne
      | cons a l => rfl
    simp [hie, List.reverse_reverse, ofDigitsLE_digitsLE]

theorem renderTime_ne_empty (t : Nat) : renderTime t ≠ "" := by
  unfold renderTime
  by_cases h : t = 0
  · rw [if_pos h]; decide
  · rw [if_neg h]
    intro hc
    have : (digitsLE t).reverse.map digitChar = ([] : List Char) := by
      have := congrArg String.data hc
      simpa using this
    have h2 : (digitsLE t).reverse = [] := by
      simpa using this
    exact digitsLE_ne_nil t h (by simpa [List.reverse_eq_nil_iff] using h2)

theorem normText_none : normText none = none := rfl

theorem normText_of_ne (tx : Option String) (h : tx ≠ some "") :
    normText tx = tx := by
  match tx with
  | none => rfl
  | some s =>
    have hs : s ≠ "" := fun hc => h (by rw [hc])
    simp [normText, hs]

theorem normText_renderTime (t : Nat) :
    normText (some (renderTime t)) = some (renderTime t) := by
  apply normText_of_ne
  simp [renderTime_ne_empty t]

theorem roundTrees_eq_map (l : List Xml) :
    Xml.roundTrees l = l.map Xml.roundTree := by
  induction l with
  | nil => rfl
  | cons x xs ih => rw [Xml.roundTrees, ih, List.map_cons]

theorem roundTree_elem (t : QName) (a : List (QName × String))
    (tx : Option String) (ch : List Xml) :
    (Xml.elem t a tx ch).roundTree
      = .elem t a (normText tx) (ch.map Xml.roundTree) := by
  rw [Xml.roundTree, roundTrees_eq_map]

theorem stateDescriptionOf_ne_empty (u : String) : stateDescriptionOf u ≠ "" := by
  unfold stateDescriptionOf
  split <;> decide

/-! ### Claim C1: round trip of the `sss/core.py` Statement through its
RDF/XML serialisation -/

namespace Core

theorem mapM_id_map_some (l : List String) :
    mapMo (fun a => a) (l.map some) = some l := by
  induction l with
  | nil => rfl
  | cons a l ih => simp [mapMo, ih]

theorem depositAggPair_toDeposit (x : DepositData) :
    depositAggPair (toDeposit x) = some [aggElem x.u, origElem x.u] := rfl

theorem depositDesc_toDeposit (x : DepositData) :
    depositDesc (toDeposit x) = some (depositDescX x) := rfl

theorem mapM_depositAggPair (dds : List DepositData) :
    mapMo depositAggPair (dds.map toDeposit)
      = some (dds.map (fun x => [aggElem x.u, origElem x.u])) := by
  induction dds with
  | nil => rfl
  | cons x l ih => simp [mapMo, depositAggPair_toDeposit, ih]

theorem mapM_depositDesc (dds : List DepositData) :
    mapMo depositDesc (dds.map toDeposit) = some (dds.map depositDescX) := by
  induction dds with
  | nil => rfl
  | cons x l ih => simp [mapMo, depositDesc_toDeposit, ih]

theorem get_rdf_xml_mkStatement (agg rem : String) (aggUris : List String)
    (dds : List DepositData) (ip : Bool) :
    (mkStatement agg rem aggUris dds ip).get_rdf_xml
      = some (treeX agg rem aggUris dds ip) := by
  unfold mkStatement Statement.get_rdf_xml treeX
  simp [mapM_id_map_some, mapM_depositAggPair, mapM_depositDesc,
    Statement.state_uri, suOf]

theorem roundTree_aggElem (u : String) : (aggElem u).roundTree = aggElem u := by
  simp [aggElem, roundTree_elem, normText_none]

theorem roundTree_origElem (u : String) : (origElem u).roundTree = origElem u := by
  simp [origElem, roundTree_elem, normText_none]

theorem roundTree_depositDescX (x : DepositData) (hb : x.b ≠ some "")
    (ho : x.o ≠ some "") : (depositDescX x).roundTree = depositDescX x := by
  unfold depositDescX
  cases hxo : x.o with
  | none =>
    simp [roundTree_elem, normText_none, normText_renderTime,
      normText_of_ne x.b hb]
  | some o =>
    have ho' : some o ≠ some "" := hxo ▸ ho
    simp [roundTree_elem, normText_none, normText_renderTime,
      normText_of_ne x.b hb, normText_of_ne (some o) ho']

theorem roundTree_treeX (agg rem : String) (aggUris : List String)
    (dds : List DepositData) (ip : Bool)
    (hb : ∀ x ∈ dds, x.b ≠ some "") (ho : ∀ x ∈ dds, x.o ≠ some "") :
    (treeX agg rem aggUris dds ip).roundTree = treeX agg rem aggUris dds ip := by
  unfold treeX
  have hdep : dds.map (fun x => (depositDescX x).roundTree)
      = dds.map depositDescX :=
    List.map_congr_left (fun x hx =>
      roundTree_depositDescX x (hb x hx) (ho x hx))
  have hsd := normText_of_ne (some (stateDescriptionOf (suOf ip)))
    (by simp [stateDescriptionOf_ne_empty])
  simp [roundTree_elem, normText_none, List.map_append, List.map_map,
    List.map_flatten, Function.comp, roundTree_aggElem, roundTree_origElem,
    hdep, hsd]
  refine ⟨?_, fun x hx => roundTree_depositDescX x (hb x hx) (ho x hx)⟩
  have h1 : List.map (Xml.roundTree ∘ aggElem) aggUris
      = List.map aggElem aggUris :=
    List.map_congr_left (fun u _ => by simp [Function.comp, roundTree_aggElem])
  have h2 : List.map (List.map Xml.roundTree ∘ fun x => [aggElem x.u, origElem x.u]) dds
      = List.map (fun x => [aggElem x.u, origElem x.u]) dds :=
    List.map_congr_left (fun x _ => by
      simp [Function.comp, roundTree_aggElem, roundTree_origElem])
  rw [h1, h2]

theorem pe_isDescribedBy (about : Option String) (a : ElemAcc) (u : String) :
    processElem about a (.elem oreIsDescribedBy [(rdfResource, u)] none []) = a := rfl

theorem pe_aggElem (about : Option String) (a : ElemAcc) (u : String) :
    processElem about a (aggElem u)
      = { a with acc := { a.acc with aggs := a.acc.aggs ++ [some u] } } := rfl

theorem pe_origElem (about : Option String) (a : ElemAcc) (u : String) :
    processElem about a (origElem u) = a := rfl

theorem pe_describes (about : Option String) (a : ElemAcc) (agg : String) :
    processElem about a (.elem oreDescribes [(rdfResource, agg)] none [])
      = { a with acc := { a.acc with
          aggregation_uri := some agg, rem_uri := about } } := rfl

theorem pe_state (about : Option String) (a : ElemAcc) (su : String) :
    processElem about a (.elem swordState [(rdfResource, su)] none [])
      = { a with acc := { a.acc with
          in_progress := decide (some su = some in_progress_uri) } } := rfl

theorem pe_packaging (about : Option String) (a : ElemAcc) (p : String) :
    processElem about a (.elem swordPackaging [(rdfResource, p)] none [])
      = { a with packaging := some p } := rfl

theorem pe_stateDescription (about : Option String) (a : ElemAcc)
    (tx : Option String) :
    processElem about a (.elem swordStateDescription [] tx []) = a := rfl

theorem pe_depositedOn (about : Option String) (a : ElemAcc) (t : Nat) :
    processElem about a (.elem swordDepositedOn [(rdfDatatype, xsdDateTime)]
        (some (renderTime t)) [])
      = { a with depositedOn := some t } := by
  have hp : (some (renderTime t)).bind parseTime = some t := by
    simp [parseTime_renderTime]
  simp [processElem, Xml.tag, Xml.text, hp, oreAggregates, oreDescribes, swordState, swordPackaging, swordDepositedOn, swordDepositedBy, swordDepositedOnBehalfOf, RDF_NS, ORE_NS, SWORD_NS]

theorem pe_depositedBy (about : Option String) (a : ElemAcc)
    (b : Option String) :
    processElem about a (.elem swordDepositedBy [(rdfDatatype, xsdString)] b [])
      = { a with deposit_by := b } := by
  simp [processElem, Xml.tag, Xml.text, oreAggregates, oreDescribes, swordState, swordPackaging, swordDepositedOn, swordDepositedBy, swordDepositedOnBehalfOf, RDF_NS, ORE_NS, SWORD_NS]

theorem pe_obo (about : Option String) (a : ElemAcc) (o : String) :
    processElem about a (.elem swordDepositedOnBehalfOf
        [(rdfDatatype, xsdString)] (some o) [])
      = { a with deposit_obo := some o } := by
  simp [processElem, Xml.tag, Xml.text, oreAggregates, oreDescribes, swordState, swordPackaging, swordDepositedOn, swordDepositedBy, swordDepositedOnBehalfOf, RDF_NS, ORE_NS, SWORD_NS]

theorem foldl_pe_aggElems (about : Option String) (us : List String)
    (a : ElemAcc) :
    List.foldl (processElem about) a (us.map aggElem)
      = { a with acc := { a.acc with aggs := a.acc.aggs ++ us.map some } } := by
  induction us generalizing a with
  | nil => simp
  | cons u us ih =>
    simp only [List.map_cons, List.foldl_cons, pe_aggElem, ih, List.map_cons]
    simp [List.append_assoc]

theorem foldl_pe_pairs (about : Option String) (dds : List DepositData)
    (a : ElemAcc) :
    List.foldl (processElem about) a
        ((dds.map (fun x => [aggElem x.u, origElem x.u])).flatten)
      = { a with acc := { a.acc with
          aggs := a.acc.aggs ++ dds.map (fun x => some x.u) } } := by
  induction dds generalizing a with
  | nil => simp
  | cons x dds ih =>
    simp only [List.map_cons, List.flatten_cons, List.cons_append,
      List.foldl_cons, List.nil_append, pe_aggElem, pe_origElem, ih]
    simp [List.append_assoc]

theorem processDesc_desc1 (acc : LoadAcc) (agg rem : String) :
    processDesc acc (.elem rdfDescription [(rdfAbout, rem)] none
        [.elem oreDescribes [(rdfResource, agg)] none []])
      = { acc with aggregation_uri := some agg, rem_uri := some rem } := by
  have habout : (Xml.elem rdfDescription [(rdfAbout, rem)] none
      [.elem oreDescribes [(rdfResource, agg)] none []]).get rdfAbout
        = some rem := rfl
  simp [processDesc, habout, Xml.children, pe_describes]

theorem processDesc_aggDesc (acc : LoadAcc) (agg rem su : String)
    (aggUris : List String) (dds : List DepositData) :
    processDesc acc (.elem rdfDescription [(rdfAbout, agg)] none
        (.elem oreIsDescribedBy [(rdfResource, rem)] none []
         :: (aggUris.map aggElem
             ++ (dds.map (fun x => [aggElem x.u, origElem x.u])).flatten
             ++ [.elem swordState [(rdfResource, su)] none []])))
      = { acc with
          aggs := acc.aggs ++ aggUris.map some ++ dds.map (fun x => some x.u)
          in_progress := decide (some su = some in_progress_uri) } := by
  simp only [processDesc, Xml.children, List.cons_append, List.foldl_cons,
    List.foldl_append, pe_isDescribedBy, foldl_pe_aggElems, foldl_pe_pairs,
    List.foldl_nil, pe_state]

theorem pdd_none (acc : LoadAcc) (x : DepositData) (hxo : x.o = none) :
    processDesc acc (depositDescX x)
      = { acc with
          ods := acc.ods ++ [some x.u]
          original_deposits := acc.original_deposits ++ [toDeposit x] } := by
  unfold depositDescX
  rw [hxo]
  simp only [processDesc, Xml.children, List.cons_append, List.foldl_cons,
    List.append_nil, List.foldl_nil, pe_packaging, pe_depositedOn,
    pe_depositedBy]
  simp [Xml.get, Xml.attrs, List.lookup, toDeposit, hxo]

theorem pdd_some (acc : LoadAcc) (x : DepositData) (o : String)
    (hxo : x.o = some o) :
    processDesc acc (depositDescX x)
      = { acc with
          ods := acc.ods ++ [some x.u]
          original_deposits := acc.original_deposits ++ [toDeposit x] } := by
  unfold depositDescX
  rw [hxo]
  simp only [processDesc, Xml.children, List.cons_append, List.nil_append,
    List.foldl_cons, List.foldl_nil, List.singleton_append, pe_packaging,
    pe_depositedOn, pe_depositedBy, pe_obo]
  simp [Xml.get, Xml.attrs, List.lookup, toDeposit, hxo]

theorem processDesc_depositDescX (acc : LoadAcc) (x : DepositData) :
    processDesc acc (depositDescX x)
      = { acc with
          ods := acc.ods ++ [some x.u]
          original_deposits := acc.original_deposits ++ [toDeposit x] } := by
  cases hxo : x.o with
  | none => exact pdd_none acc x hxo
  | some o => exact pdd_some acc x o hxo

theorem processDesc_stateDesc (acc : LoadAcc) (su : String)
    (tx : Option String) :
    processDesc acc (.elem rdfDescription [(rdfAbout, su)] none
        [.elem swordStateDescription [] tx []]) = acc := by
  simp [processDesc, Xml.children, pe_stateDescription]

theorem foldl_processDesc_deposits (acc : LoadAcc) (dds : List DepositData) :
    List.foldl processDesc acc (dds.map depositDescX)
      = { acc with
          ods := acc.ods ++ dds.map (fun x => some x.u)
          original_deposits := acc.original_deposits ++ dds.map toDeposit } := by
  induction dds generalizing acc with
  | nil => simp
  | cons x dds ih =>
    simp only [List.map_cons, List.foldl_cons, processDesc_depositDescX, ih]
    simp [List.append_assoc]

theorem decide_state_uri (ip : Bool) :
    decide (some (suOf ip) = some in_progress_uri) = ip := by
  cases ip <;> decide

/-- Claim C1.  Serialising a statement (any number of original deposits
with concrete URIs and timestamps, any number of plain aggregate URIs
disjoint from the deposit URIs, any state) to RDF/XML and parsing the
result back with `Statement.load` reproduces the statement exactly:
`aggregation_uri`, `rem_uri`, `in_progress`, the ordered list (hence the
multiset) of original-deposit tuples, and the plain aggregates, with the
original deposits separated from the plain aggregates.  The depositedBy
and on-behalf-of fields must not be present-but-empty, since an empty XML
text serialises like an absent one. -/
theorem C1_statement_rdf_round_trip
    (agg rem : String) (aggUris : List String) (dds : List DepositData)
    (ip : Bool) (s : Statement)
    (hs : s = mkStatement agg rem aggUris dds ip)
    (hb : ∀ x ∈ dds, x.b ≠ some "") (ho : ∀ x ∈ dds, x.o ≠ some "")
    (hdisj : ∀ u ∈ aggUris, ∀ x ∈ dds, u ≠ x.u)
    (tree : Xml) (htree : s.get_rdf_xml = some tree) :
    Statement.load tree.roundTree = .ok s := by
  subst hs
  rw [get_rdf_xml_mkStatement] at htree
  have htree' := Option.some.inj htree
  subst htree'
  rw [roundTree_treeX agg rem aggUris dds ip hb ho]
  unfold Statement.load treeX
  simp only [Xml.children, List.cons_append, List.nil_append, List.foldl_cons,
    List.foldl_append, List.foldl_nil,
    processDesc_desc1, processDesc_aggDesc, processDesc_stateDesc,
    foldl_processDesc_deposits]
  simp [mkStatement]
  constructor
  · have h1 : List.filter (fun g => decide (∀ x ∈ dds, ¬some x.u = g))
        (List.map some aggUris) = List.map some aggUris := by
      rw [List.filter_eq_self]
      intro a ha
      rcases List.mem_map.mp ha with ⟨u, hu, rfl⟩
      simp only [decide_eq_true_eq]
      intro x hx hxe
      have hux : x.u = u := by injection hxe
      exact hdisj u hu x hx hux.symm
    have h2 : List.filter (fun g => decide (∀ x ∈ dds, ¬some x.u = g))
        (List.map (fun x => some x.u) dds) = [] := by
      rw [List.filter_eq_nil_iff]
      intro a ha
      rcases List.mem_map.mp ha with ⟨x, hx, rfl⟩
      simp only [decide_eq_true_eq]
      intro hall
      exact hall x hx rfl
    rw [h1, h2, List.append_nil]
  · cases ip <;> decide

/-- Witness for claim C1 at a concrete statement: two original deposits
(one with depositor and on-behalf-of, one without) and one plain
aggregate, in progress. -/
theorem C1_statement_rdf_round_trip_witness :
    Statement.load
        ((treeX "http://agg" "http://rem" ["http://plain"]
          [⟨"http://d1", 5, "http://packZ", some "rich", some "obo1"⟩,
           ⟨"http://d2", 7, "http://packY", none, none⟩] true).roundTree)
      = .ok (mkStatement "http://agg" "http://rem" ["http://plain"]
          [⟨"http://d1", 5, "http://packZ", some "rich", some "obo1"⟩,
           ⟨"http://d2", 7, "http://packY", none, none⟩] true) :=
  C1_statement_rdf_round_trip "http://agg" "http://rem" ["http://plain"]
    [⟨"http://d1", 5, "http://packZ", some "rich", some "obo1"⟩,
     ⟨"http://d2", 7, "http://packY", none, none⟩] true _ rfl
    (by decide) (by decide) (by decide) _
    (get_rdf_xml_mkStatement "http://agg" "http://rem" ["http://plain"]
      [⟨"http://d1", 5, "http://packZ", some "rich", some "obo1"⟩,
       ⟨"http://d2", 7, "http://packY", none, none⟩] true)

end Core

/-! ### Claims C3 and C4: content negotiation -/

namespace Sss

/-- Claim C3.  The claim says every entry lacking an explicit q receives a
synthetic q strictly inside the gap `(highest_q, 1.0)`, proportional to
its position among the unweighted entries, earlier entries higher.  The
code computes `(1.0-q_range) + ((pos/counter)*q_range)` where `pos/counter`
is Python 2 integer floor division over the position among all entries, so
for `Accept: a/a,b/b` the earlier entry gets q = 0.0 and the later gets
q = 1.0 — the later entry outranks the earlier one — and for the spec's
own scenario `Accept: b/b,a/a;q=0.5` the unweighted first entry gets
exactly `highest_q` (0.5), not a value inside the gap. -/
theorem C3_synthetic_q_not_as_claimed :
    analyse_accept "a/a,b/b" none
      = .ok [(PyKey.kfloat 0, [⟨some "a", some "a", none, none⟩]),
             (PyKey.kfloat 1, [⟨some "b", some "b", none, none⟩])] ∧
    analyse_accept "b/b,a/a;q=0.5" none
      = .ok [(PyKey.kfloat (1/2), [⟨some "b", some "b", none, none⟩]),
             (PyKey.kstr "0.5", [⟨some "a", some "a", none, none⟩])] ∧
    ((0 : ℚ) < 1 ∧ ¬((1 : ℚ)/2 > 1/2)) := by
  exact ⟨by rfl, by rfl, by norm_num⟩

/-- Claim C4.  The claim says `negotiate` scans the q tiers from
numerically highest to lowest.  Explicit q values are string dictionary
keys and synthetic ones are floats, and Python 2 sorts every string above
every float, so for `Accept: a/a;q=0.5,b/b` (where the unweighted `b/b`
lands in the q = 1.0 tier) the server scans the explicit 0.5 tier first
and returns `a/a`, while the claimed numeric scan returns `b/b`. -/
theorem C4_tier_scan_not_numeric :
    negotiate
        { acceptable := [⟨some "b", some "b", none, none⟩,
                         ⟨some "a", some "a", none, none⟩] }
        { accept := some "a/a;q=0.5,b/b" }
      = .ok (some ⟨some "a", some "a", none, none⟩) ∧
    analyse_accept "a/a;q=0.5,b/b" none
      = .ok [(PyKey.kstr "0.5", [⟨some "a", some "a", none, none⟩]),
             (PyKey.kfloat 1, [⟨some "b", some "b", none, none⟩])] ∧
    claimTierScan
        [(PyKey.kstr "0.5", [⟨some "a", some "a", none, none⟩]),
         (PyKey.kfloat 1, [⟨some "b", some "b", none, none⟩])]
        [⟨some "b", some "b", none, none⟩, ⟨some "a", some "a", none, none⟩]
      = some ⟨some "b", some "b", none, none⟩ := by
  exact ⟨by rfl, by rfl, by rfl⟩

/-- A list equation whose two sides are each a slash-free prefix, a slash
and a tail splits at that first slash. -/
theorem firstSlashSplit : ∀ xs ys us vs : List Char,
    (∀ a ∈ xs, a ≠ '/') → (∀ a ∈ ys, a ≠ '/') →
    xs ++ '/' :: us = ys ++ '/' :: vs → xs = ys ∧ us = vs := by
  intro xs
  induction xs with
  | nil =>
    intro ys us vs _ hy h
    cases ys with
    | nil =>
      simp only [List.nil_append, List.cons.injEq] at h
      exact ⟨rfl, h.2⟩
    | cons y ys =>
      simp only [List.nil_append, List.cons_append, List.cons.injEq] at h
      exact absurd h.1.symm (hy y (List.mem_cons_self y ys))
  | cons x xs ih =>
    intro ys us vs hx hy h
    cases ys with
    | nil =>
      simp only [List.cons_append, List.nil_append, List.cons.injEq] at h
      exact absurd h.1 (hx x (List.mem_cons_self x xs))
    | cons y ys =>
      simp only [List.cons_append, List.cons.injEq] at h
      obtain ⟨hxy, h2⟩ := h
      obtain ⟨h3, h4⟩ := ih ys us vs
        (fun a ha => hx a (List.mem_cons_of_mem x ha))
        (fun a ha => hy a (List.mem_cons_of_mem y ha)) h2
      exact ⟨by rw [hxy, h3], h4⟩

theorem quoteChar_ne_nil (c : Char) : quoteChar c ≠ [] := by
  unfold quoteChar
  by_cases h : quoteSafe c = true <;> simp [h]

theorem hexDigitChar_inj :
    ∀ a < 16, ∀ b < 16, hexDigitChar a = hexDigitChar b → a = b := by
  decide

/-- `urllib.quote` is injective byte by byte. -/
theorem quoteChars_inj : ∀ xs ys : List Char,
    (∀ a ∈ xs, a.toNat < 256) → (∀ a ∈ ys, a.toNat < 256) →
    xs.flatMap quoteChar = ys.flatMap quoteChar → xs = ys := by
  intro xs
  induction xs with
  | nil =>
    intro ys _ _ h
    cases ys with
    | nil => rfl
    | cons y ys =>
      exfalso
      rw [List.flatMap_nil, List.flatMap_cons] at h
      exact quoteChar_ne_nil y (List.append_eq_nil.mp h.symm).1
  | cons x xs ih =>
    intro ys hx hy h
    cases ys with
    | nil =>
      exfalso
      rw [List.flatMap_nil, List.flatMap_cons] at h
      exact quoteChar_ne_nil x (List.append_eq_nil.mp h).1
    | cons y ys =>
      rw [List.flatMap_cons, List.flatMap_cons] at h
      have hx0 : x.toNat < 256 := hx x (List.mem_cons_self x xs)
      have hy0 : y.toNat < 256 := hy y (List.mem_cons_self y ys)
      have hxy : x = y ∧ xs.flatMap quoteChar = ys.flatMap quoteChar := by
        by_cases hsx : quoteSafe x = true <;> by_cases hsy : quoteSafe y = true
        · rw [quoteChar, if_pos hsx, quoteChar, if_pos hsy,
            List.singleton_append, List.singleton_append] at h
          injection h with h1 h2
          exact ⟨h1, h2⟩
        · exfalso
          rw [quoteChar, if_pos hsx, quoteChar, if_neg hsy,
            List.singleton_append, List.cons_append] at h
          injection h with h1 _
          rw [h1] at hsx
          exact absurd hsx (by decide)
        · exfalso
          rw [quoteChar, if_neg hsx, quoteChar, if_pos hsy,
            List.singleton_append, List.cons_append] at h
          injection h with h1 _
          rw [← h1] at hsy
          exact absurd hsy (by decide)
        · rw [quoteChar, if_neg hsx, quoteChar, if_neg hsy,
            List.cons_append, List.cons_append, List.cons_append,
            List.cons_append] at h
          injection h with _ h2
          injection h2 with hd1 h3
          injection h3 with hd2 h4
          have e1 : x.toNat / 16 % 16 = y.toNat / 16 % 16 :=
            hexDigitChar_inj _ (Nat.mod_lt _ (by decide)) _
              (Nat.mod_lt _ (by decide)) hd1
          have e2 : x.toNat % 16 = y.toNat % 16 :=
            hexDigitChar_inj _ (Nat.mod_lt _ (by decide)) _
              (Nat.mod_lt _ (by decide)) hd2
          have e3 : x.toNat = y.toNat := by omega
          have e4 := congrArg Char.ofNat e3
          rw [Char.ofNat_toNat, Char.ofNat_toNat] at e4
          exact ⟨e4, h4⟩
      obtain ⟨rfl, h2⟩ := hxy
      rw [ih ys (fun a ha => hx a (List.mem_cons_of_mem x ha))
        (fun a ha => hy a (List.mem_cons_of_mem x ha)) h2]

/-- `urllib.quote` is injective on byte strings. -/
theorem pyQuote_inj (s t : String) (hs : byteString s) (ht : byteString t)
    (h : pyQuote s = pyQuote t) : s = t :=
  String.ext (quoteChars_inj s.data t.data hs ht (congrArg String.data h))

theorem word_noSlash (k : UriCall) : noSlash k.word := by
  cases k <;> simp only [UriCall.word] <;> decide

/-- Every based URI-manager mapping produces `base ++ word ++ "/" ++ rest`. -/
theorem uri_data (base : String) : ∀ k : UriCall,
    (∀ c i, k ≠ .atomId c i) →
    (k.uri base).data = base.data ++ (k.word.data ++ '/' :: k.rest.data) := by
  intro k hk
  cases k with
  | atomId c i => exact absurd rfl (hk c i)
  | html c i =>
    simp [UriCall.uri, UriCall.word, UriCall.rest, URIManager.html_url,
      String.data_append, List.append_assoc]
  | col i =>
    simp [UriCall.uri, UriCall.word, UriCall.rest, URIManager.col_uri,
      String.data_append, List.append_assoc]
  | edit c i =>
    simp [UriCall.uri, UriCall.word, UriCall.rest, URIManager.edit_uri,
      String.data_append, List.append_assoc]
  | em c i =>
    simp [UriCall.uri, UriCall.word, UriCall.rest, URIManager.em_uri,
      String.data_append, List.append_assoc]
  | cont c i =>
    simp [UriCall.uri, UriCall.word, UriCall.rest, URIManager.cont_uri,
      String.data_append, List.append_assoc]
  | stateAtom c i =>
    simp [UriCall.uri, UriCall.word, UriCall.rest,
      String.data_append, List.append_assoc]
  | stateOre c i =>
    simp [UriCall.uri, UriCall.word, UriCall.rest,
      String.data_append, List.append_assoc]
  | agg c i =>
    simp [UriCall.uri, UriCall.word, UriCall.rest, URIManager.agg_uri,
      String.data_append, List.append_assoc]
  | part c i fn =>
    simp [UriCall.uri, UriCall.word, UriCall.rest, URIManager.part_uri,
      String.data_append, List.append_assoc]

theorem atomId_uri_data (base c i : String) :
    ((UriCall.atomId c i).uri base).data =
      "tag:container@sss".data ++ '/' :: (c.data ++ '/' :: i.data) := by
  simp [UriCall.uri, URIManager.atom_id, String.data_append, List.append_assoc]

theorem atomId_uri_head (base c i : String) :
    ((UriCall.atomId c i).uri base).data.head? = some 't' := by
  simp [UriCall.uri, URIManager.atom_id, String.data_append]

theorem uri_head_based (base : String) (k : UriCall)
    (hk : ∀ c i, k ≠ .atomId c i) (b : Char) (bs : List Char)
    (hbase : base.data = b :: bs) : (k.uri base).data.head? = some b := by
  rw [uri_data base k hk, hbase]
  rfl

/-- Two based calls with the same path word and the same remainder are the
same call. -/
theorem uriCall_eq_of_word_rest (k₁ k₂ : UriCall)
    (hk₁ : ∀ c i, k₁ ≠ .atomId c i) (hk₂ : ∀ c i, k₂ ≠ .atomId c i)
    (h₁ : k₁.wf) (h₂ : k₂.wf)
    (hw : k₁.word = k₂.word) (hr : k₁.rest = k₂.rest) : k₁ = k₂ := by
  cases k₁ <;> cases k₂ <;>
    first
    | exact absurd rfl (hk₁ _ _)
    | exact absurd rfl (hk₂ _ _)
    | exact absurd hw (by simp only [UriCall.word]; decide)
    | skip
  · rename_i c₁ i₁ c₂ i₂
    obtain ⟨hc₁, hi₁⟩ := h₁
    obtain ⟨hc₂, hi₂⟩ := h₂
    have hrd : c₁.data ++ '/' :: i₁.data = c₂.data ++ '/' :: i₂.data := by
      simpa [UriCall.rest, String.data_append] using congrArg String.data hr
    obtain ⟨hc, hi⟩ := firstSlashSplit _ _ _ _ hc₁ hc₂ hrd
    obtain rfl : c₁ = c₂ := String.ext hc
    obtain rfl : i₁ = i₂ := String.ext hi
    rfl
  · rename_i i₁ i₂
    exact congrArg UriCall.col hr
  · rename_i c₁ i₁ c₂ i₂
    obtain ⟨hc₁, hi₁⟩ := h₁
    obtain ⟨hc₂, hi₂⟩ := h₂
    have hrd : c₁.data ++ '/' :: i₁.data = c₂.data ++ '/' :: i₂.data := by
      simpa [UriCall.rest, String.data_append] using congrArg String.data hr
    obtain ⟨hc, hi⟩ := firstSlashSplit _ _ _ _ hc₁ hc₂ hrd
    obtain rfl : c₁ = c₂ := String.ext hc
    obtain rfl : i₁ = i₂ := String.ext hi
    rfl
  · rename_i c₁ i₁ c₂ i₂
    obtain ⟨hc₁, hi₁⟩ := h₁
    obtain ⟨hc₂, hi₂⟩ := h₂
    have hrd : c₁.data ++ '/' :: i₁.data = c₂.data ++ '/' :: i₂.data := by
      simpa [UriCall.rest, String.data_append] using congrArg String.data hr
    obtain ⟨hc, hi⟩ := firstSlashSplit _ _ _ _ hc₁ hc₂ hrd
    obtain rfl : c₁ = c₂ := String.ext hc
    obtain rfl : i₁ = i₂ := String.ext hi
    rfl
  · rename_i c₁ i₁ c₂ i₂
    obtain ⟨hc₁, hi₁⟩ := h₁
    obtain ⟨hc₂, hi₂⟩ := h₂
    have hrd : c₁.data ++ '/' :: i₁.data = c₂.data ++ '/' :: i₂.data := by
      simpa [UriCall.rest, String.data_append] using congrArg String.data hr
    obtain ⟨hc, hi⟩ := firstSlashSplit _ _ _ _ hc₁ hc₂ hrd
    obtain rfl : c₁ = c₂ := String.ext hc
    obtain rfl : i₁ = i₂ := String.ext hi
    rfl
  · rename_i c₁ i₁ c₂ i₂
    obtain ⟨hc₁, hi₁⟩ := h₁
    obtain ⟨hc₂, hi₂⟩ := h₂
    have hrd : c₁.data ++ '/' :: (i₁.data ++ ['.', 'a', 't', 'o', 'm'])
        = c₂.data ++ '/' :: (i₂.data ++ ['.', 'a', 't', 'o', 'm']) := by
      simpa [UriCall.rest, String.data_append] using congrArg String.data hr
    obtain ⟨hc, hi⟩ := firstSlashSplit _ _ _ _ hc₁ hc₂ hrd
    obtain rfl : c₁ = c₂ := String.ext hc
    obtain rfl : i₁ = i₂ := String.ext (List.append_cancel_right hi)
    rfl
  · rename_i c₁ i₁ c₂ i₂
    exfalso
    obtain ⟨hc₁, hi₁⟩ := h₁
    obtain ⟨hc₂, hi₂⟩ := h₂
    have hrd : c₁.data ++ '/' :: (i₁.data ++ ['.', 'a', 't', 'o', 'm'])
        = c₂.data ++ '/' :: (i₂.data ++ ['.', 'r', 'd', 'f']) := by
      simpa [UriCall.rest, String.data_append] using congrArg String.data hr
    obtain ⟨_, hi⟩ := firstSlashSplit _ _ _ _ hc₁ hc₂ hrd
    have h5 := congrArg List.getLast? hi
    rw [List.getLast?_append_of_ne_nil _ (by decide),
      List.getLast?_append_of_ne_nil _ (by decide)] at h5
    exact absurd h5 (by decide)
  · rename_i c₁ i₁ c₂ i₂
    exfalso
    obtain ⟨hc₁, hi₁⟩ := h₁
    obtain ⟨hc₂, hi₂⟩ := h₂
    have hrd : c₁.data ++ '/' :: (i₁.data ++ ['.', 'r', 'd', 'f'])
        = c₂.data ++ '/' :: (i₂.data ++ ['.', 'a', 't', 'o', 'm']) := by
      simpa [UriCall.rest, String.data_append] using congrArg String.data hr
    obtain ⟨_, hi⟩ := firstSlashSplit _ _ _ _ hc₁ hc₂ hrd
    have h5 := congrArg List.getLast? hi
    rw [List.getLast?_append_of_ne_nil _ (by decide),
      List.getLast?_append_of_ne_nil _ (by decide)] at h5
    exact absurd h5 (by decide)
  · rename_i c₁ i₁ c₂ i₂
    obtain ⟨hc₁, hi₁⟩ := h₁
    obtain ⟨hc₂, hi₂⟩ := h₂
    have hrd : c₁.data ++ '/' :: (i₁.data ++ ['.', 'r', 'd', 'f'])
        = c₂.data ++ '/' :: (i₂.data ++ ['.', 'r', 'd', 'f']) := by
      simpa [UriCall.rest, String.data_append] using congrArg String.data hr
    obtain ⟨hc, hi⟩ := firstSlashSplit _ _ _ _ hc₁ hc₂ hrd
    obtain rfl : c₁ = c₂ := String.ext hc
    obtain rfl : i₁ = i₂ := String.ext (List.append_cancel_right hi)
    rfl
  · rename_i c₁ i₁ c₂ i₂
    obtain ⟨hc₁, hi₁⟩ := h₁
    obtain ⟨hc₂, hi₂⟩ := h₂
    have hrd : c₁.data ++ '/' :: i₁.data = c₂.data ++ '/' :: i₂.data := by
      simpa [UriCall.rest, String.data_append] using congrArg String.data hr
    obtain ⟨hc, hi⟩ := firstSlashSplit _ _ _ _ hc₁ hc₂ hrd
    obtain rfl : c₁ = c₂ := String.ext hc
    obtain rfl : i₁ = i₂ := String.ext hi
    rfl
  · rename_i c₁ i₁ fn₁ c₂ i₂ fn₂
    obtain ⟨hc₁, hi₁, hf₁⟩ := h₁
    obtain ⟨hc₂, hi₂, hf₂⟩ := h₂
    have hrd : c₁.data ++ '/' :: (i₁.data ++ '/' :: (pyQuote fn₁).data)
        = c₂.data ++ '/' :: (i₂.data ++ '/' :: (pyQuote fn₂).data) := by
      simpa [UriCall.rest, String.data_append] using congrArg String.data hr
    obtain ⟨hc, hrest⟩ := firstSlashSplit _ _ _ _ hc₁ hc₂ hrd
    obtain ⟨hi, hq⟩ := firstSlashSplit _ _ _ _ hi₁ hi₂ hrest
    obtain rfl : c₁ = c₂ := String.ext hc
    obtain rfl : i₁ = i₂ := String.ext hi
    obtain rfl : fn₁ = fn₂ := pyQuote_inj fn₁ fn₂ hf₁ hf₂ (String.ext hq)
    rfl

/-- Claim C9 (counterexample).  The claim says every mapping is stable and
distinct triples give distinct URIs.  But with `on_behalf_of` set,
`sd_uri` appends a freshly drawn `uuid.uuid4()` and so yields a different
URI on every call; and the mappings are bare slash concatenation, so the
distinct pairs `("a/b", "c")` and `("a", "b/c")` collide under
`edit_uri`. -/
theorem C9_uri_not_injective :
    URIManager.sd_uri "http://b/" true "u1"
        ≠ URIManager.sd_uri "http://b/" true "u2" ∧
    URIManager.edit_uri "http://b/" "a/b" "c"
        = URIManager.edit_uri "http://b/" "a" "b/c" ∧
    ("a/b", "c") ≠ ("a", "b/c") := by
  exact ⟨by decide, by decide, by decide⟩

/-- Claim C9 (amended).  Without mediation `sd_uri` ignores the drawn UUID
and is stable across calls; and over a base URL starting with `'h'` (such
as `http://...`) the URI-manager mappings are jointly injective on
well-formed calls: slash-free collection and id names, byte-string
filenames. -/
theorem C9_uri_mappings_injective (base : String) (bs : List Char)
    (hbase : base.data = 'h' :: bs) :
    (∀ u₁ u₂ : String,
      URIManager.sd_uri base false u₁ = URIManager.sd_uri base false u₂) ∧
    ∀ k₁ k₂ : UriCall, k₁.wf → k₂.wf → k₁.uri base = k₂.uri base →
      k₁ = k₂ := by
  constructor
  · intro u₁ u₂
    rfl
  · intro k₁ k₂ h₁ h₂ h
    have hd := congrArg String.data h
    by_cases ha₁ : ∃ c i, k₁ = UriCall.atomId c i
    · obtain ⟨c₁, i₁, rfl⟩ := ha₁
      by_cases ha₂ : ∃ c i, k₂ = UriCall.atomId c i
      · obtain ⟨c₂, i₂, rfl⟩ := ha₂
        rw [atomId_uri_data, atomId_uri_data] at hd
        have h3 := List.append_cancel_left hd
        injection h3 with _ h4
        obtain ⟨hc, hi⟩ := firstSlashSplit _ _ _ _ h₁.1 h₂.1 h4
        obtain rfl : c₁ = c₂ := String.ext hc
        obtain rfl : i₁ = i₂ := String.ext hi
        rfl
      · exfalso
        have hk₂ : ∀ c i, k₂ ≠ UriCall.atomId c i :=
          fun c i hne => ha₂ ⟨c, i, hne⟩
        have e1 := atomId_uri_head base c₁ i₁
        have e2 := uri_head_based base k₂ hk₂ 'h' bs hbase
        rw [hd, e2] at e1
        exact absurd e1 (by decide)
    · by_cases ha₂ : ∃ c i, k₂ = UriCall.atomId c i
      · exfalso
        obtain ⟨c₂, i₂, rfl⟩ := ha₂
        have hk₁ : ∀ c i, k₁ ≠ UriCall.atomId c i :=
          fun c i hne => ha₁ ⟨c, i, hne⟩
        have e1 := atomId_uri_head base c₂ i₂
        have e2 := uri_head_based base k₁ hk₁ 'h' bs hbase
        rw [← hd, e2] at e1
        exact absurd e1 (by decide)
      · have hk₁ : ∀ c i, k₁ ≠ UriCall.atomId c i :=
          fun c i hne => ha₁ ⟨c, i, hne⟩
        have hk₂ : ∀ c i, k₂ ≠ UriCall.atomId c i :=
          fun c i hne => ha₂ ⟨c, i, hne⟩
        rw [uri_data base k₁ hk₁, uri_data base k₂ hk₂] at hd
        have h3 := List.append_cancel_left hd
        obtain ⟨hw, hr⟩ := firstSlashSplit _ _ _ _
          (word_noSlash k₁) (word_noSlash k₂) h3
        exact uriCall_eq_of_word_rest k₁ k₂ hk₁ hk₂ h₁ h₂
          (String.ext hw) (String.ext hr)

/-- Claim C9 (amended), instantiated at the default base URL shape and
applied to two concrete well-formed calls. -/
theorem C9_uri_mappings_injective_witness :
    ("http://b/".data = 'h' :: "ttp://b/".data) ∧
    ((∀ u₁ u₂ : String,
      URIManager.sd_uri "http://b/" false u₁
        = URIManager.sd_uri "http://b/" false u₂) ∧
    ∀ k₁ k₂ : UriCall, k₁.wf → k₂.wf →
      k₁.uri "http://b/" = k₂.uri "http://b/" → k₁ = k₂) :=
  ⟨by decide, C9_uri_mappings_injective "http://b/" "ttp://b/".data (by decide)⟩

/-- Claim C2.  The deposit pre-checks run before any store mutation and in
order: the sentinel error packaging yields ErrorContent with 400; else a
mismatching `Content-MD5` (whatever the mediation situation) yields
ErrorChecksumMismatch with 412; else on-behalf-of without mediation yields
MediationNotAllowed with 412.  Whenever the checks produce an error — or
raise — `deposit_new` returns it with the store untouched, so on a
checksum failure no container is created and nothing is written. -/
theorem C2_deposit_prechecks (md5 : Bytes → String)
    (extract : Bytes → Metadata) (cfg : Configuration) (st : Store)
    (collection : String) (dep : DepositRequest) (now : Nat)
    (freshId : String) :
    (dep.packaging = cfg.error_content_package →
      check_deposit_errors md5 cfg dep
        = .ok (some { error := some ⟨error_content_uri, none⟩,
                      error_code := some "400 Bad Request" })) ∧
    (dep.packaging ≠ cfg.error_content_package →
      ∀ given body, dep.content_md5 = some given → dep.content = some body →
        md5 body ≠ given →
        check_deposit_errors md5 cfg dep
          = .ok (some { error := some ⟨error_checksum_mismatch_uri, none⟩,
                        error_code := some "412 Precondition Failed" })) ∧
    (dep.packaging ≠ cfg.error_content_package →
      (∀ given, dep.content_md5 = some given →
        ∃ body, dep.content = some body ∧ md5 body = given) →
      ∀ a, dep.auth = some a → a.obo.isSome = true → cfg.mediation = false →
        check_deposit_errors md5 cfg dep
          = .ok (some { error := some ⟨error_mediation_not_allowed_uri, none⟩,
                        error_code := some "412 Precondition Failed" })) ∧
    (∀ r, check_deposit_errors md5 cfg dep = .ok (some r) →
      deposit_new md5 extract cfg st collection dep now freshId
        = (.ok (some r), st)) ∧
    (∀ e, check_deposit_errors md5 cfg dep = .error e →
      deposit_new md5 extract cfg st collection dep now freshId
        = (.error e, st)) := by
  refine ⟨?_, ?_, ?_, ?_, ?_⟩
  · intro h
    simp [check_deposit_errors, h]
  · intro h given body hg hb hne
    simp [check_deposit_errors, h, hg, hb, hne]
  · intro h hsum a ha hobo hmed
    cases hmd : dep.content_md5 with
    | none => simp [check_deposit_errors, h, ha, hmd, hobo, hmed]
    | some given =>
      obtain ⟨body, hb, he⟩ := hsum given hmd
      simp [check_deposit_errors, h, ha, hmd, hb, he, hobo, hmed]
  · intro r hr
    simp only [deposit_new, hr]
  · intro e he
    simp only [deposit_new, he]

/-- Claim C2, applied to concrete deposits: the sentinel packaging, a
mismatched checksum under disabled mediation with an on-behalf-of user
(the checksum error wins), a mediated deposit alone, and the checksum
failure leaving `deposit_new`'s store unchanged. -/
theorem C2_deposit_prechecks_witness :
    check_deposit_errors (fun _ => "SUM") {}
        { packaging := "http://purl.org/net/sword/package/error" }
      = .ok (some { error := some ⟨error_content_uri, none⟩,
                    error_code := some "400 Bad Request" }) ∧
    check_deposit_errors (fun _ => "SUM") { mediation := false }
        { content := some [1], content_md5 := some "OTHER",
          auth := some { obo := some "o" } }
      = .ok (some { error := some ⟨error_checksum_mismatch_uri, none⟩,
                    error_code := some "412 Precondition Failed" }) ∧
    check_deposit_errors (fun _ => "SUM") { mediation := false }
        { auth := some { obo := some "o" } }
      = .ok (some { error := some ⟨error_mediation_not_allowed_uri, none⟩,
                    error_code := some "412 Precondition Failed" }) ∧
    deposit_new (fun _ => "SUM") (fun _ => []) { mediation := false }
        ⟨["col"], fun _ _ => none⟩ "col"
        { content := some [1], content_md5 := some "OTHER",
          auth := some { obo := some "o" } } 0 "id"
      = (.ok (some { error := some ⟨error_checksum_mismatch_uri, none⟩,
                     error_code := some "412 Precondition Failed" }),
         ⟨["col"], fun _ _ => none⟩) := by
  refine ⟨?_, ?_, ?_, ?_⟩
  · exact (C2_deposit_prechecks (fun _ => "SUM") (fun _ => []) {}
      ⟨["col"], fun _ _ => none⟩ "col" _ 0 "id").1 rfl
  · exact (C2_deposit_prechecks (fun _ => "SUM") (fun _ => [])
      { mediation := false } ⟨["col"], fun _ _ => none⟩ "col" _ 0
      "id").2.1 (by decide) "OTHER" [1] rfl rfl (by decide)
  · exact (C2_deposit_prechecks (fun _ => "SUM") (fun _ => [])
      { mediation := false } ⟨["col"], fun _ _ => none⟩ "col" _ 0
      "id").2.2.1 (by decide) (fun given hg => nomatch hg) ⟨none, some "o",
      false⟩ rfl rfl rfl
  · exact (C2_deposit_prechecks (fun _ => "SUM") (fun _ => [])
      { mediation := false } ⟨["col"], fun _ _ => none⟩ "col" _ 0
      "id").2.2.2.1 _ rfl

theorem getContainer_set (st : Store) (c i : String) (cont : Container) :
    (st.setContainer c i cont).getContainer c i = some cont := by
  simp [Store.getContainer, Store.setContainer]

theorem getContainer_update (st : Store) (c i : String)
    (f : Container → Container) (cont : Container)
    (h : st.getContainer c i = some cont) :
    (st.updateContainer c i f).getContainer c i = some (f cont) := by
  simp [Store.updateContainer, h, getContainer_set]

theorem ingest_preserves (extract : Bytes → Metadata) (kind : IngesterKind)
    (st : Store) (c i fn : String) (mr : Bool) (cont : Container)
    (h : st.getContainer c i = some cont) :
    ∃ cont', (ingest extract kind st c i fn mr).getContainer c i
      = some cont' := by
  unfold ingest
  cases kind with
  | metsIngester => exact ⟨cont, h⟩
  | defaultIngester =>
    cases hatom : (st.getContainer c i).bind (fun cont => cont.atomDoc) with
    | none => exact ⟨cont, h⟩
    | some a => exact ⟨_, getContainer_update st c i _ cont h⟩

/-- Any successful RDF serialisation contains the `sword:state` element
pointing at the statement's state URI. -/
theorem serialise_state_elem (s : Statement) (rdf : Xml)
    (h : s.serialise = some rdf) :
    ∃ d ∈ rdf.children, ∃ e ∈ d.children,
      e.tag = swordState ∧ e.get rdfResource = some s.state_uri := by
  unfold Statement.serialise Statement.get_rdf_xml at h
  cases hrem : s.rem_uri with
  | none => rw [hrem] at h; simp at h
  | some rem =>
  cases hagg : s.aggregation_uri with
  | none => rw [hrem, hagg] at h; simp at h
  | some agg =>
  cases hp : mapMo Core.depositAggPair s.original_deposits with
  | none => rw [hrem, hagg, hp] at h; simp at h
  | some depPairs =>
  cases hd : mapMo Core.depositDesc s.original_deposits with
  | none => rw [hrem, hagg, hp, hd] at h; simp at h
  | some depDescs =>
  rw [hrem, hagg, hp, hd] at h
  have h2 := Option.some.inj h
  subst h2
  refine ⟨.elem rdfDescription [(rdfAbout, agg)] none
      ([.elem oreIsDescribedBy [(rdfResource, rem)] none []]
        ++ depPairs.flatten
        ++ [.elem swordState [(rdfResource, s.state_uri)] none []]),
    ?_, .elem swordState [(rdfResource, s.state_uri)] none [], ?_, rfl, rfl⟩
  · simp [Xml.children]
  · simp [Xml.children]

/-- `deposit_new_finish` always succeeds, with created/accepted set from
`in_progress` and both serialisations of the built statement written into
the (present) container. -/
theorem deposit_new_finish_ok (cfg : Configuration) (st : Store)
    (collection id : String) (dep : DepositRequest) (du : Option String)
    (now : Nat) (cont0 : Container)
    (hcont : st.getContainer collection id = some cont0) :
    ∃ (resp : DepositResponse) (st' : Store) (s : Statement) (rdf : Xml) (feed : AtomFeed),
      deposit_new_finish cfg st collection id dep du now
        = (.ok (some resp), st')
      ∧ resp.accepted = dep.in_progress
      ∧ resp.created = !dep.in_progress
      ∧ s.in_progress = dep.in_progress
      ∧ s.serialise = some rdf
      ∧ s.serialise_atom = some feed
      ∧ feed.state_href = s.state_uri
      ∧ ∃ cont, st'.getContainer collection id = some cont
          ∧ cont.statementRdf = some rdf ∧ cont.statementAtom = some feed := by
  cases du with
  | none =>
    refine ⟨_, _,
      { aggregation_uri := some (URIManager.agg_uri cfg.base_url collection id),
        rem_uri := some (URIManager.edit_uri cfg.base_url collection id),
        original_deposits := [], in_progress := dep.in_progress },
      _, _, rfl, rfl, rfl, rfl, rfl, rfl, rfl, ?_⟩
    exact ⟨_, getContainer_update _ collection id _ _
      (getContainer_update _ collection id _ _
        (getContainer_update st collection id _ cont0 hcont)), rfl, rfl⟩
  | some u =>
    refine ⟨_, _,
      { aggregation_uri := some (URIManager.agg_uri cfg.base_url collection id),
        rem_uri := some (URIManager.edit_uri cfg.base_url collection id),
        original_deposits := [⟨some u, some now, dep.packaging,
          dep.auth.bind (fun a => a.byUser), dep.auth.bind (fun a => a.obo)⟩],
        in_progress := dep.in_progress },
      _, _, rfl, rfl, rfl, rfl, rfl, rfl, rfl, ?_⟩
    exact ⟨_, getContainer_update _ collection id _ _
      (getContainer_update _ collection id _ _
        (getContainer_update st collection id _ cont0 hcont)), rfl, rfl⟩

/-- Claim C5 (counterexample).  A deposit of content with the default
`Binary` packaging passes the pre-checks but has no registered ingester,
so `package_ingesters[deposit.packaging]` raises `KeyError` instead of
returning created/accepted. -/
theorem C5_deposit_new_keyerror :
    (deposit_new (fun _ => "SUM") (fun _ => []) {} ⟨["col"], fun _ _ => none⟩
        "col" { content := some [1] } 0 "id").1
      = .error "KeyError: package_ingesters" := by
  rfl

/-- Claim C5 (amended).  A deposit that passes the pre-checks, into an
existing collection, and either carries no content or names a packaging
with a registered ingester, yields accepted = `in_progress` and
created = `¬in_progress`, and the new container's stored statement
artifacts are exactly the two serialisations of one Statement whose state
URI is `in-progress` or `archived` according to `in_progress` — the Atom
feed points at it and the RDF/XML holds it in its `sword:state`
element. -/
theorem C5_deposit_new_state (md5 : Bytes → String)
    (extract : Bytes → Metadata) (cfg : Configuration) (st : Store)
    (collection : String) (dep : DepositRequest) (now : Nat)
    (freshId : String)
    (hpre : check_deposit_errors md5 cfg dep = .ok none)
    (hcol : DAO.collection_exists st collection = true)
    (hing : dep.content = none
      ∨ ∃ kind, cfg.package_ingesters.lookup dep.packaging = some kind) :
    ∃ (resp : DepositResponse) (st' : Store) (s : Statement) (rdf : Xml) (feed : AtomFeed),
      deposit_new md5 extract cfg st collection dep now freshId
        = (.ok (some resp), st')
      ∧ resp.accepted = dep.in_progress
      ∧ resp.created = !dep.in_progress
      ∧ s.in_progress = dep.in_progress
      ∧ s.state_uri = (if dep.in_progress then in_progress_uri
          else archived_uri)
      ∧ s.serialise = some rdf
      ∧ s.serialise_atom = some feed
      ∧ feed.state_href = s.state_uri
      ∧ (∃ d ∈ rdf.children, ∃ e ∈ d.children,
          e.tag = swordState ∧ e.get rdfResource = some s.state_uri)
      ∧ ∃ cont, st'.getContainer collection (dep.slug.getD freshId)
          = some cont
          ∧ cont.statementRdf = some rdf ∧ cont.statementAtom = some feed := by
  obtain ⟨st1, cont1, hcc, hc1⟩ : ∃ st1 cont1,
      DAO.create_container st collection dep.slug freshId
        = (st1, dep.slug.getD freshId)
      ∧ st1.getContainer collection (dep.slug.getD freshId) = some cont1 := by
    cases hg : st.getContainer collection (dep.slug.getD freshId) with
    | some c0 =>
      refine ⟨st, c0, ?_, hg⟩
      simp only [DAO.create_container]
      rw [hg]
    | none =>
      refine ⟨_, emptyContainer, ?_,
        getContainer_set st collection (dep.slug.getD freshId) emptyContainer⟩
      simp only [DAO.create_container]
      rw [hg]
  obtain ⟨cont2, h2⟩ : ∃ cont2, (match dep.atom with
      | some a => DAO.store_atom st1 collection (dep.slug.getD freshId) a
      | none => st1).getContainer collection (dep.slug.getD freshId)
        = some cont2 := by
    cases dep.atom with
    | none => exact ⟨cont1, hc1⟩
    | some a =>
      exact ⟨_, getContainer_update st1 collection (dep.slug.getD freshId) _
        cont1 hc1⟩
  obtain ⟨stX, cont4, duX, hstep, hpres⟩ : ∃ stX cont4 duX,
      deposit_new md5 extract cfg st collection dep now freshId
        = deposit_new_finish cfg stX collection (dep.slug.getD freshId) dep
            duX now
      ∧ stX.getContainer collection (dep.slug.getD freshId) = some cont4 := by
    cases hcontent : dep.content with
    | none =>
      refine ⟨_, cont2, none, ?_, h2⟩
      simp [deposit_new, hpre, hcol, hcc, hcontent]
    | some body =>
      obtain ⟨kind, hk⟩ : ∃ kind,
          cfg.package_ingesters.lookup dep.packaging = some kind := by
        cases hing with
        | inl h => rw [h] at hcontent; cases hcontent
        | inr h => exact h
      have h3 := getContainer_update
        (match dep.atom with
          | some a => DAO.store_atom st1 collection (dep.slug.getD freshId) a
          | none => st1)
        collection (dep.slug.getD freshId)
        (fun cont =>
          { cont with contents := fun n =>
              if n = renderTime now ++ "_" ++ dep.filename then some body
              else cont.contents n })
        cont2 h2
      obtain ⟨cont4, h4⟩ := ingest_preserves extract kind _ collection
        (dep.slug.getD freshId) (renderTime now ++ "_" ++ dep.filename)
        dep.metadata_relevant _ h3
      refine ⟨_, cont4, some (URIManager.part_uri cfg.base_url collection
        (dep.slug.getD freshId) (renderTime now ++ "_" ++ dep.filename)),
        ?_, h4⟩
      simp [deposit_new, hpre, hcol, hcc, hcontent, hk, DAO.store_content]
  obtain ⟨resp, st', s, rdf, feed, heq, hacc, hcr, hip, hser, hsa, hhref,
    cont, hgc, hrdf, hfeed⟩ :=
    deposit_new_finish_ok cfg stX collection (dep.slug.getD freshId) dep duX
      now cont4 hpres
  exact ⟨resp, st', s, rdf, feed, hstep.trans heq, hacc, hcr, hip,
    by simp [Statement.state_uri, hip], hser, hsa, hhref,
    serialise_state_elem s rdf hser, cont, hgc, hrdf, hfeed⟩

/-- Claim C5 (amended), applied to a concrete in-progress deposit without
content into an existing empty collection. -/
theorem C5_deposit_new_state_witness :
    ∃ (resp : DepositResponse) (st' : Store) (s : Statement) (rdf : Xml) (feed : AtomFeed),
      deposit_new (fun _ => "SUM") (fun _ => []) {}
          ⟨["col"], fun _ _ => none⟩ "col" { in_progress := true } 0 "id"
        = (.ok (some resp), st')
      ∧ resp.accepted = true
      ∧ resp.created = !true
      ∧ s.in_progress = true
      ∧ s.state_uri = (if true then in_progress_uri else archived_uri)
      ∧ s.serialise = some rdf
      ∧ s.serialise_atom = some feed
      ∧ feed.state_href = s.state_uri
      ∧ (∃ d ∈ rdf.children, ∃ e ∈ d.children,
          e.tag = swordState ∧ e.get rdfResource = some s.state_uri)
      ∧ ∃ cont, st'.getContainer "col" "id" = some cont
          ∧ cont.statementRdf = some rdf ∧ cont.statementAtom = some feed :=
  C5_deposit_new_state (fun _ => "SUM") (fun _ => []) {}
    ⟨["col"], fun _ _ => none⟩ "col" { in_progress := true } 0 "id"
    rfl rfl (Or.inl rfl)

theorem ingest_noop_of_no_atom (extract : Bytes → Metadata)
    (kind : IngesterKind) (st : Store) (c i fn : String) (mr : Bool)
    (cont : Container) (h : st.getContainer c i = some cont)
    (ha : cont.atomDoc = none) :
    ingest extract kind st c i fn mr = st := by
  unfold ingest
  cases kind with
  | metsIngester => rfl
  | defaultIngester => simp [h, ha]

/-- Claim C6 (counterexample).  `replace` on an existing container, with
content in the default `Binary` packaging, raises `KeyError` out of
`package_ingesters[deposit.packaging]` instead of returning a response. -/
theorem C6_replace_keyerror :
    (replace (fun _ => "SUM") (fun _ => []) {}
        ⟨["col"], fun c i =>
          if c = "col" ∧ i = "id" then some emptyContainer else none⟩
        "col/id" { content := some [1] } 0).1
      = .error "KeyError: package_ingesters" := by
  rfl

/-- Claim C6 (amended).  After the pre-checks pass: for a non-existent
object `replace` returns null and leaves the store alone; for an existing
container, a deposit with content in a packaging with a registered
ingester removes the old content (the metadata artifact surviving exactly
when `metadata_relevant`), stores the new content, and stores a brand-new
Statement holding exactly one original-deposit entry for that content —
all prior deposit history is discarded — answering created/accepted per
`in_progress`. -/
theorem C6_replace_semantics (md5 : Bytes → String)
    (extract : Bytes → Metadata) (cfg : Configuration) (st : Store)
    (oid : String) (dep : DepositRequest) (now : Nat)
    (hpre : check_deposit_errors md5 cfg dep = .ok none) :
    (∀ collection id, URIManager.interpret_oid oid = some (collection, id) →
      oidExists st collection id = false →
      replace md5 extract cfg st oid dep now = (.ok none, st)) ∧
    (∀ collection id cont0,
      URIManager.interpret_oid oid = some (collection, id) →
      oidExists st collection id = true →
      st.getContainer collection id = some cont0 →
      ∀ body, dep.content = some body →
      ∀ kind, cfg.package_ingesters.lookup dep.packaging = some kind →
      ∃ (resp : DepositResponse) (st' : Store) (s : Statement) (rdf : Xml)
          (feed : AtomFeed),
        replace md5 extract cfg st oid dep now = (.ok (some resp), st')
        ∧ resp.accepted = dep.in_progress
        ∧ resp.created = !dep.in_progress
        ∧ s = { aggregation_uri :=
                  some (URIManager.agg_uri cfg.base_url collection id),
                rem_uri :=
                  some (URIManager.edit_uri cfg.base_url collection id),
                original_deposits := [⟨some (URIManager.part_uri cfg.base_url
                  collection id (renderTime now ++ "_" ++ dep.filename)),
                  some now, dep.packaging, dep.auth.bind (fun a => a.byUser),
                  dep.auth.bind (fun a => a.obo)⟩],
                in_progress := dep.in_progress }
        ∧ s.serialise = some rdf
        ∧ s.serialise_atom = some feed
        ∧ ∃ cont, st'.getContainer collection id = some cont
            ∧ cont.statementRdf = some rdf
            ∧ cont.statementAtom = some feed
            ∧ cont.metadata
                = (if dep.metadata_relevant then cont0.metadata else none)) := by
  constructor
  · intro collection id hio hex
    simp [replace, hpre, hio, hex]
  · intro collection id cont0 hio hex h0 body hbody kind hk
    have hrm : (DAO.remove_content st collection id
          dep.metadata_relevant).getContainer collection id
        = some ⟨fun _ => none, none,
            if dep.metadata_relevant then cont0.metadata else none,
            none, none, none⟩ :=
      getContainer_update st collection id _ cont0 h0
    have hsc : ((DAO.remove_content st collection id
          dep.metadata_relevant).updateContainer collection id
          (fun cont =>
            { cont with contents := fun n =>
                if n = renderTime now ++ "_" ++ dep.filename then some body
                else cont.contents n })).getContainer collection id
        = some ⟨fun n =>
              if n = renderTime now ++ "_" ++ dep.filename then some body
              else none, none,
            if dep.metadata_relevant then cont0.metadata else none,
            none, none, none⟩ :=
      getContainer_update _ collection id _ _ hrm
    refine ⟨_, _,
      { aggregation_uri :=
          some (URIManager.agg_uri cfg.base_url collection id),
        rem_uri := some (URIManager.edit_uri cfg.base_url collection id),
        original_deposits := [⟨some (URIManager.part_uri cfg.base_url
          collection id (renderTime now ++ "_" ++ dep.filename)),
          some now, dep.packaging, dep.auth.bind (fun a => a.byUser),
          dep.auth.bind (fun a => a.obo)⟩],
        in_progress := dep.in_progress },
      _, _,
      by simp [replace, hpre, hio, hex, hbody, hk, DAO.store_content]
         rw [ingest_noop_of_no_atom extract kind _ collection id _ _ _ hsc rfl]
         rfl,
      rfl, rfl, rfl, rfl, rfl, ?hf⟩
    case hf =>
      exact ⟨_, getContainer_update _ collection id _ _
        (getContainer_update _ collection id _ _
          (getContainer_update _ collection id _ _ hsc)), rfl, rfl, rfl⟩

/-- Claim C6 (amended), applied to a concrete replacement into a missing
container (null) and into an existing one (a response). -/
theorem C6_replace_semantics_witness :
    replace (fun _ => "SUM") (fun _ => []) {} ⟨["col"], fun _ _ => none⟩
        "col/id"
        { content := some [1],
          packaging := "http://purl.org/net/sword/package/SimpleZip" } 0
      = (.ok none, ⟨["col"], fun _ _ => none⟩) ∧
    ∃ (resp : DepositResponse) (st' : Store),
      replace (fun _ => "SUM") (fun _ => []) {}
        ⟨["col"], fun c i =>
          if c = "col" ∧ i = "id" then some emptyContainer else none⟩
        "col/id"
        { content := some [1],
          packaging := "http://purl.org/net/sword/package/SimpleZip" } 0
      = (.ok (some resp), st') := by
  constructor
  · exact (C6_replace_semantics (fun _ => "SUM") (fun _ => []) {}
      ⟨["col"], fun _ _ => none⟩ "col/id"
      { content := some [1],
        packaging := "http://purl.org/net/sword/package/SimpleZip" } 0
      rfl).1 "col" "id" rfl rfl
  · obtain ⟨resp, st', s, rdf, feed, heq, _⟩ :=
      (C6_replace_semantics (fun _ => "SUM") (fun _ => []) {}
        ⟨["col"], fun c i =>
          if c = "col" ∧ i = "id" then some emptyContainer else none⟩
        "col/id"
        { content := some [1],
          packaging := "http://purl.org/net/sword/package/SimpleZip" } 0
        rfl).2 "col" "id" emptyContainer rfl rfl rfl [1] rfl
        .defaultIngester rfl
    exact ⟨resp, st', heq⟩

/-- Claim C7 (counterexample).  `add_content` on a container whose stored
statement holds a prior original deposit replaces that statement with a
brand-new one: afterwards the stored Atom feed has exactly one entry, for
the new file only — the prior deposit history is lost, not appended to. -/
theorem C7_add_content_not_append :
    ∃ cont,
      (add_content (fun _ => "SUM") {}
          ⟨["col"], fun c i =>
            if c = "col" ∧ i = "id" then
              some
                { emptyContainer with
                  statementAtom :=
                    some ⟨"S", "D",
                      [⟨"http://old", "pack", "T", none, none⟩]⟩ }
            else none⟩
          "col/id" { content := some [1] } 0).2.getContainer "col" "id"
        = some cont
      ∧ ∃ feed, cont.statementAtom = some feed ∧ feed.entries.length = 1
          ∧ ∀ e ∈ feed.entries, e.uri ≠ "http://old" := by
  refine ⟨_, rfl, _, rfl, rfl, ?_⟩
  decide

/-- Claim C7 (amended).  After the pre-checks: for a missing object
`add_content` returns null leaving the store alone; for an existing
container with content supplied it stores the file (all other files, the
atom document and the extracted metadata are untouched — there is no
ingestion or metadata extraction) and stores a brand-new Statement whose
deposit list is exactly the one new entry, so prior deposit history is
replaced rather than extended. -/
theorem C7_add_content_semantics (md5 : Bytes → String)
    (cfg : Configuration) (st : Store) (oid : String) (dep : DepositRequest)
    (now : Nat)
    (hpre : check_deposit_errors md5 cfg dep = .ok none) :
    (∀ collection id, URIManager.interpret_oid oid = some (collection, id) →
      oidExists st collection id = false →
      add_content md5 cfg st oid dep now = (.ok none, st)) ∧
    (∀ collection id cont0,
      URIManager.interpret_oid oid = some (collection, id) →
      oidExists st collection id = true →
      st.getContainer collection id = some cont0 →
      ∀ body, dep.content = some body →
      ∃ (resp : DepositResponse) (st' : Store) (s : Statement) (rdf : Xml)
          (feed : AtomFeed),
        add_content md5 cfg st oid dep now = (.ok (some resp), st')
        ∧ resp.accepted = dep.in_progress
        ∧ resp.created = !dep.in_progress
        ∧ s = { aggregation_uri :=
                  some (URIManager.agg_uri cfg.base_url collection id),
                rem_uri :=
                  some (URIManager.edit_uri cfg.base_url collection id),
                original_deposits := [⟨some (URIManager.part_uri cfg.base_url
                  collection id (renderTime now ++ "_" ++ dep.filename)),
                  some now, dep.packaging, dep.auth.bind (fun a => a.byUser),
                  dep.auth.bind (fun a => a.obo)⟩],
                in_progress := dep.in_progress }
        ∧ s.serialise = some rdf
        ∧ s.serialise_atom = some feed
        ∧ ∃ cont, st'.getContainer collection id = some cont
            ∧ cont.statementRdf = some rdf
            ∧ cont.statementAtom = some feed
            ∧ cont.metadata = cont0.metadata
            ∧ cont.atomDoc = cont0.atomDoc
            ∧ cont.contents (renderTime now ++ "_" ++ dep.filename)
                = some body
            ∧ ∀ n, n ≠ renderTime now ++ "_" ++ dep.filename →
                cont.contents n = cont0.contents n) := by
  constructor
  · intro collection id hio hex
    simp [add_content, hpre, hio, hex]
  · intro collection id cont0 hio hex h0 body hbody
    have hsc : (st.updateContainer collection id
          (fun cont =>
            { cont with contents := fun n =>
                if n = renderTime now ++ "_" ++ dep.filename then some body
                else cont.contents n })).getContainer collection id
        = some { cont0 with contents := fun n =>
            if n = renderTime now ++ "_" ++ dep.filename then some body
            else cont0.contents n } :=
      getContainer_update st collection id _ cont0 h0
    refine ⟨_, _,
      { aggregation_uri :=
          some (URIManager.agg_uri cfg.base_url collection id),
        rem_uri := some (URIManager.edit_uri cfg.base_url collection id),
        original_deposits := [⟨some (URIManager.part_uri cfg.base_url
          collection id (renderTime now ++ "_" ++ dep.filename)),
          some now, dep.packaging, dep.auth.bind (fun a => a.byUser),
          dep.auth.bind (fun a => a.obo)⟩],
        in_progress := dep.in_progress },
      _, _,
      by simp [add_content, hpre, hio, hex, hbody, DAO.store_content]
         rfl,
      rfl, rfl, rfl, rfl, rfl, ?hf⟩
    case hf =>
      refine ⟨_, getContainer_update _ collection id _ _
        (getContainer_update _ collection id _ _
          (getContainer_update _ collection id _ _ hsc)),
        rfl, rfl, rfl, rfl, ?_, ?_⟩
      · simp
      · intro n hn
        simp [hn]

/-- Claim C7 (amended), applied to a concrete content add into a missing
container (null) and into an existing one (a response). -/
theorem C7_add_content_semantics_witness :
    add_content (fun _ => "SUM") {} ⟨["col"], fun _ _ => none⟩
        "col/id" { content := some [1] } 0
      = (.ok none, ⟨["col"], fun _ _ => none⟩) ∧
    ∃ (resp : DepositResponse) (st' : Store),
      add_content (fun _ => "SUM") {}
        ⟨["col"], fun c i =>
          if c = "col" ∧ i = "id" then some emptyContainer else none⟩
        "col/id" { content := some [1] } 0
      = (.ok (some resp), st') := by
  constructor
  · exact (C7_add_content_semantics (fun _ => "SUM") {}
      ⟨["col"], fun _ _ => none⟩ "col/id" { content := some [1] } 0
      rfl).1 "col" "id" rfl rfl
  · obtain ⟨resp, st', s, rdf, feed, heq, _⟩ :=
      (C7_add_content_semantics (fun _ => "SUM") {}
        ⟨["col"], fun c i =>
          if c = "col" ∧ i = "id" then some emptyContainer else none⟩
        "col/id" { content := some [1] } 0
        rfl).2 "col" "id" emptyContainer rfl rfl rfl [1] rfl
    exact ⟨resp, st', heq⟩

/-- Claim C8 (counterexample).  `load_statement` opens the statement file
unconditionally, so with the container absent — or present but lacking the
artifact — it raises `IOError` rather than returning a default. -/
theorem C8_load_statement_raises :
    DAO.load_statement ⟨["col"], fun _ _ => none⟩ "col" "id"
      = .error "IOError: statement file absent" ∧
    DAO.load_statement
        ⟨["col"], fun c i =>
          if c = "col" ∧ i = "id" then some emptyContainer else none⟩
        "col" "id"
      = .error "IOError: statement file absent" :=
  ⟨rfl, rfl⟩

/-- Claim C8 (amended).  For every container identifier,
`get_metadata` returns the empty mapping and never fails when the metadata
artifact (or the whole container) is absent; `load_statement`, however,
raises `IOError` whenever the statement artifact is absent. -/
theorem C8_absent_artifacts (st : Store) (c i : String) :
    ((st.getContainer c i).bind (fun cont => cont.metadata) = none →
      DAO.get_metadata st c i = []) ∧
    ((st.getContainer c i).bind (fun cont => cont.statementRdf) = none →
      DAO.load_statement st c i = .error "IOError: statement file absent") := by
  constructor
  · intro h
    simp [DAO.get_metadata, h]
  · intro h
    unfold DAO.load_statement
    rw [h]

/-- Claim C8 (amended), applied to the store with one empty collection. -/
theorem C8_absent_artifacts_witness :
    ((⟨["col"], fun _ _ => none⟩ : Store).getContainer "col" "id").bind
        (fun cont => cont.metadata) = none ∧
    DAO.get_metadata ⟨["col"], fun _ _ => none⟩ "col" "id" = [] ∧
    DAO.load_statement ⟨["col"], fun _ _ => none⟩ "col" "id"
      = .error "IOError: statement file absent" :=
  ⟨rfl, (C8_absent_artifacts ⟨["col"], fun _ _ => none⟩ "col" "id").1 rfl,
    (C8_absent_artifacts ⟨["col"], fun _ _ => none⟩ "col" "id").2 rfl⟩

theorem mapMo_mem_isSome {α β : Type} (f : α → Option β) :
    ∀ (l : List α) (r : List β), mapMo f l = some r →
      ∀ a ∈ l, (f a).isSome := by
  intro l
  induction l with
  | nil =>
    intro r _ a ha
    cases ha
  | cons x l ih =>
    intro r h a ha
    simp only [mapMo] at h
    cases hfx : f x with
    | none => simp [hfx] at h
    | some b =>
      cases hml : mapMo f l with
      | none => simp [hfx, hml] at h
      | some r' =>
        rcases List.mem_cons.mp ha with rfl | hmem
        · rw [hfx]; rfl
        · exact ih r' hml a hmem

theorem mapMo_some_of_all {α β : Type} (f : α → Option β) :
    ∀ l : List α, (∀ a ∈ l, (f a).isSome) → ∃ r, mapMo f l = some r := by
  intro l
  induction l with
  | nil => intro _; exact ⟨[], rfl⟩
  | cons x l ih =>
    intro h
    obtain ⟨b, hb⟩ :=
      Option.isSome_iff_exists.mp (h x (List.mem_cons_self x l))
    obtain ⟨r, hr⟩ := ih (fun a ha => h a (List.mem_cons_of_mem x ha))
    exact ⟨b :: r, by simp [mapMo, hb, hr]⟩

/-- When the RDF/XML serialisation of a statement succeeds, so does its
Atom-feed serialisation: both need exactly a URI and a timestamp on every
original deposit. -/
theorem serialise_atom_of_serialise (s : Statement) (rdf : Xml)
    (h : s.serialise = some rdf) : ∃ feed, s.serialise_atom = some feed := by
  have hdd : ∃ dds, mapMo Core.depositDesc s.original_deposits = some dds := by
    unfold Statement.serialise Statement.get_rdf_xml at h
    cases hrem : s.rem_uri with
    | none => rw [hrem] at h; simp at h
    | some rem =>
    cases hagg : s.aggregation_uri with
    | none => rw [hrem, hagg] at h; simp at h
    | some agg =>
    cases hp : mapMo Core.depositAggPair s.original_deposits with
    | none => rw [hrem, hagg, hp] at h; simp at h
    | some depPairs =>
    cases hd : mapMo Core.depositDesc s.original_deposits with
    | none => rw [hrem, hagg, hp, hd] at h; simp at h
    | some depDescs => exact ⟨depDescs, rfl⟩
  obtain ⟨dds, hdd⟩ := hdd
  have hall : ∀ d ∈ s.original_deposits, (feedEntryOf d).isSome := by
    intro d hdm
    have h1 := mapMo_mem_isSome Core.depositDesc s.original_deposits dds
      hdd d hdm
    unfold Core.depositDesc at h1
    unfold feedEntryOf
    cases hu : d.uri with
    | none => rw [hu] at h1; simp at h1
    | some u =>
      cases ht : d.depositedOn with
      | none => rw [hu, ht] at h1; simp at h1
      | some t => rfl
  obtain ⟨entries, he⟩ := mapMo_some_of_all feedEntryOf s.original_deposits
    hall
  refine ⟨⟨s.state_uri, stateDescriptionOf s.state_uri, entries⟩, ?_⟩
  unfold Statement.serialise_atom
  rw [he]
  rfl

theorem setContainer_set (st : Store) (c i : String) (a b : Container) :
    (st.setContainer c i a).setContainer c i b = st.setContainer c i b := by
  unfold Store.setContainer
  congr 1
  funext c' i'
  by_cases h : c' = c ∧ i' = i
  · simp [h]
  · simp [h]

theorem updateContainer_comp (st : Store) (c i : String)
    (f g : Container → Container) :
    (st.updateContainer c i f).updateContainer c i g
      = st.updateContainer c i (fun cont => g (f cont)) := by
  unfold Store.updateContainer
  cases hg : st.getContainer c i with
  | none => simp [hg]
  | some cont0 => simp [hg, getContainer_set, setContainer_set]

theorem setContainer_consistent (st : Store) (c i : String)
    (cont : Container) (hst : storeConsistent st)
    (hc : statementConsistent cont) :
    storeConsistent (st.setContainer c i cont) := by
  intro c' i' cont' hg
  simp only [Store.setContainer, Store.getContainer] at hg
  by_cases hk : c' = c ∧ i' = i
  · rw [if_pos hk] at hg
    exact Option.some.inj hg ▸ hc
  · rw [if_neg hk] at hg
    exact hst c' i' cont' hg

theorem updateContainer_consistent (st : Store) (c i : String)
    (f : Container → Container) (hst : storeConsistent st)
    (hf : ∀ cont, statementConsistent cont → statementConsistent (f cont)) :
    storeConsistent (st.updateContainer c i f) := by
  cases hgc : st.getContainer c i with
  | none =>
    intro c' i' cont' hg
    simp only [Store.updateContainer, hgc] at hg
    exact hst c' i' cont' hg
  | some cont0 =>
    intro c' i' cont' hg
    simp only [Store.updateContainer, hgc] at hg
    simp only [Store.setContainer, Store.getContainer] at hg
    by_cases hk : c' = c ∧ i' = i
    · rw [if_pos hk] at hg
      exact Option.some.inj hg ▸ hf cont0 (hst c i cont0 hgc)
    · rw [if_neg hk] at hg
      exact hst c' i' cont' hg

/-- `store_statement` keeps the store consistent: it writes both
serialisations of the one statement, or — when the statement cannot be
serialised — writes nothing at all. -/
theorem store_statement_consistent (st : Store) (c i : String)
    (s : Statement) (r : Except String Unit) (st' : Store)
    (h : DAO.store_statement st c i s = (r, st'))
    (hst : storeConsistent st) : storeConsistent st' := by
  unfold DAO.store_statement at h
  cases hser : s.serialise with
  | none =>
    rw [hser] at h
    have h2 : st = st' := congrArg Prod.snd h
    exact h2 ▸ hst
  | some rdf =>
    obtain ⟨feed, hfeed⟩ := serialise_atom_of_serialise s rdf hser
    rw [hser, hfeed] at h
    have h2 : ((st.updateContainer c i
        (fun cont => { cont with statementRdf := some rdf })).updateContainer
          c i (fun cont => { cont with statementAtom := some feed })) = st' :=
      congrArg Prod.snd h
    rw [← h2, updateContainer_comp]
    exact updateContainer_consistent st c i _ hst
      (fun cont _ => Or.inr ⟨s, rdf, feed, hser, hfeed, rfl, rfl⟩)

theorem ingest_consistent (extract : Bytes → Metadata) (kind : IngesterKind)
    (st : Store) (c i fn : String) (mr : Bool) (hst : storeConsistent st) :
    storeConsistent (ingest extract kind st c i fn mr) := by
  unfold ingest
  cases kind with
  | metsIngester => exact hst
  | defaultIngester =>
    cases hatom : (st.getContainer c i).bind (fun cont => cont.atomDoc) with
    | none => exact hst
    | some a =>
      exact updateContainer_consistent st c i _ hst (fun cont hc => hc)

theorem remove_container_consistent (st : Store) (c i : String)
    (hst : storeConsistent st) :
    storeConsistent (DAO.remove_container st c i) := by
  have h1 : storeConsistent (DAO.remove_content st c i false) :=
    updateContainer_consistent st c i _ hst (fun cont _ => Or.inl ⟨rfl, rfl⟩)
  intro c' i' cont' hg
  simp only [DAO.remove_container, Store.getContainer] at hg
  by_cases hk : c' = c ∧ i' = i
  · rw [if_pos hk] at hg
    cases hg
  · rw [if_neg hk] at hg
    exact h1 c' i' cont' hg

/-- The tail shared by `deposit_new_finish` and `add_content`: the
`store_statement` call, then the receipt build and write. -/
theorem new_finish_tail_consistent (st0 : Store) (collection id : String)
    (dep : DepositRequest) (s0 : Statement) (edit : String)
    (hst : storeConsistent st0) :
    storeConsistent ((match DAO.store_statement st0 collection id s0 with
      | (.error e, st) =>
        ((.error e : Except String (Option DepositResponse)), st)
      | (.ok _, st) =>
        match deposit_receipt collection id s0
            (some (DAO.get_metadata st collection id)) with
        | none => (.error "TypeError: receipt", st)
        | some receipt =>
          (.ok (some { receipt := some receipt, location := some edit,
                       accepted := dep.in_progress,
                       created := !dep.in_progress }),
           DAO.store_deposit_receipt st collection id receipt)).2) := by
  cases hss : DAO.store_statement st0 collection id s0 with
  | mk res st' =>
    have h' := store_statement_consistent st0 collection id s0 res st' hss
      hst
    cases res with
    | error e => exact h'
    | ok u =>
      show storeConsistent ((match deposit_receipt collection id s0
          (some (DAO.get_metadata st' collection id)) with
        | none =>
          ((.error "TypeError: receipt"
            : Except String (Option DepositResponse)), st')
        | some receipt =>
          (.ok (some { receipt := some receipt, location := some edit,
                       accepted := dep.in_progress,
                       created := !dep.in_progress }),
           DAO.store_deposit_receipt st' collection id receipt)).2)
      cases deposit_receipt collection id s0
          (some (DAO.get_metadata st' collection id)) with
      | none => exact h'
      | some receipt =>
        exact updateContainer_consistent st' collection id _ h'
          (fun cont hc => hc)

/-- The tail of `replace`: `store_statement`, then the receipt. -/
theorem replace_tail_consistent (st0 : Store) (collection id : String)
    (dep : DepositRequest) (s0 : Statement) (hst : storeConsistent st0) :
    storeConsistent ((match DAO.store_statement st0 collection id s0 with
      | (.error e, st) =>
        ((.error e : Except String (Option DepositResponse)), st)
      | (.ok _, st) =>
        match deposit_receipt collection id s0 none with
        | none => (.error "TypeError: receipt", st)
        | some receipt =>
          (.ok (some { receipt := some receipt,
                       accepted := dep.in_progress,
                       created := !dep.in_progress }),
           DAO.store_deposit_receipt st collection id receipt)).2) := by
  cases hss : DAO.store_statement st0 collection id s0 with
  | mk res st' =>
    have h' := store_statement_consistent st0 collection id s0 res st' hss
      hst
    cases res with
    | error e => exact h'
    | ok u =>
      show storeConsistent ((match deposit_receipt collection id s0 none with
        | none =>
          ((.error "TypeError: receipt"
            : Except String (Option DepositResponse)), st')
        | some receipt =>
          (.ok (some { receipt := some receipt,
                       accepted := dep.in_progress,
                       created := !dep.in_progress }),
           DAO.store_deposit_receipt st' collection id receipt)).2)
      cases deposit_receipt collection id s0 none with
      | none => exact h'
      | some receipt =>
        exact updateContainer_consistent st' collection id _ h'
          (fun cont hc => hc)

/-- The tail of `delete_content`: `store_statement`, then the receipt. -/
theorem delete_tail_consistent (st0 : Store) (collection id : String)
    (s0 : Statement) (hst : storeConsistent st0) :
    storeConsistent ((match DAO.store_statement st0 collection id s0 with
      | (.error e, st) =>
        ((.error e : Except String (Option DeleteResponse)), st)
      | (.ok _, st) =>
        match deposit_receipt collection id s0 none with
        | none => (.error "TypeError: receipt", st)
        | some receipt =>
          (.ok (some { receipt := some receipt }),
           DAO.store_deposit_receipt st collection id receipt)).2) := by
  cases hss : DAO.store_statement st0 collection id s0 with
  | mk res st' =>
    have h' := store_statement_consistent st0 collection id s0 res st' hss
      hst
    cases res with
    | error e => exact h'
    | ok u =>
      show storeConsistent ((match deposit_receipt collection id s0 none with
        | none =>
          ((.error "TypeError: receipt"
            : Except String (Option DeleteResponse)), st')
        | some receipt =>
          (.ok (some { receipt := some receipt }),
           DAO.store_deposit_receipt st' collection id receipt)).2)
      cases deposit_receipt collection id s0 none with
      | none => exact h'
      | some receipt =>
        exact updateContainer_consistent st' collection id _ h'
          (fun cont hc => hc)

theorem deposit_existing_finish_consistent (st : Store)
    (collection id : String) (dep : DepositRequest) (s : Statement)
    (hst : storeConsistent st) :
    storeConsistent ((deposit_existing_finish st collection id dep s).2) := by
  unfold deposit_existing_finish
  cases hdr : deposit_receipt collection id s none with
  | none => exact hst
  | some receipt =>
    exact updateContainer_consistent st collection id _ hst
      (fun cont hc => hc)

/-- The tail of `deposit_existing`: `store_statement`, then the finish. -/
theorem existing_tail_consistent (st0 : Store) (collection id : String)
    (dep : DepositRequest) (s0 : Statement) (hst : storeConsistent st0) :
    storeConsistent ((match DAO.store_statement st0 collection id s0 with
      | (.error e, st) =>
        ((.error e : Except String (Option DepositResponse)), st)
      | (.ok _, st) => deposit_existing_finish st collection id dep s0).2) := by
  cases hss : DAO.store_statement st0 collection id s0 with
  | mk res st' =>
    have h' := store_statement_consistent st0 collection id s0 res st' hss
      hst
    cases res with
    | error e => exact h'
    | ok u =>
      exact deposit_existing_finish_consistent st' collection id dep s0 h'

theorem deposit_new_finish_consistent (cfg : Configuration) (st : Store)
    (collection id : String) (dep : DepositRequest) (du : Option String)
    (now : Nat) (hst : storeConsistent st) :
    storeConsistent ((deposit_new_finish cfg st collection id dep du now).2) := by
  simp only [deposit_new_finish]
  exact new_finish_tail_consistent st collection id dep _ _ hst

/-- Claim C10.  Every server operation keeps the store
statement-consistent: each container's two statement artifacts are always
the RDF/XML and Atom serialisations of a single Statement value (or both
absent), because the only writer is `store_statement`, which serialises
one statement twice and cannot write one artifact without the other. -/
theorem C10_statement_consistency (cfg : Configuration) (st : Store)
    (op : ServerOp) (hst : storeConsistent st) :
    storeConsistent (op.apply cfg st) := by
  cases op with
  | depositNew md5 extract collection dep now freshId =>
    simp only [ServerOp.apply]
    cases hc : check_deposit_errors md5 cfg dep with
    | error e => simp only [deposit_new, hc]; exact hst
    | ok o =>
      cases o with
      | some er => simp only [deposit_new, hc]; exact hst
      | none =>
        simp only [deposit_new, hc]
        cases hcol : DAO.collection_exists st collection with
        | false => exact hst
        | true =>
          rw [if_neg (by simp)]
          obtain ⟨st1, hcc, h1⟩ : ∃ st1,
              DAO.create_container st collection dep.slug freshId
                = (st1, dep.slug.getD freshId) ∧ storeConsistent st1 := by
            cases hg : st.getContainer collection (dep.slug.getD freshId) with
            | some c0 =>
              refine ⟨st, ?_, hst⟩
              simp only [DAO.create_container]
              rw [hg]
            | none =>
              refine ⟨_, ?_, setContainer_consistent st collection
                (dep.slug.getD freshId) emptyContainer hst
                (Or.inl ⟨rfl, rfl⟩)⟩
              simp only [DAO.create_container]
              rw [hg]
          rw [hcc]
          have hA : storeConsistent (match dep.atom with
              | some a =>
                DAO.store_atom st1 collection (dep.slug.getD freshId) a
              | none => st1) := by
            cases dep.atom with
            | none => exact h1
            | some a =>
              exact updateContainer_consistent st1 collection
                (dep.slug.getD freshId) _ h1 (fun cont hc => hc)
          cases hcontent : dep.content with
          | none =>
            exact deposit_new_finish_consistent cfg _ collection _ dep none
              now hA
          | some body =>
            have hB : storeConsistent (DAO.store_content
                (match dep.atom with
                  | some a =>
                    DAO.store_atom st1 collection (dep.slug.getD freshId) a
                  | none => st1)
                collection (dep.slug.getD freshId) body dep.filename now).1 :=
              updateContainer_consistent _ collection (dep.slug.getD freshId)
                _ hA (fun cont hc => hc)
            cases hlk : cfg.package_ingesters.lookup dep.packaging with
            | none => exact hB
            | some kind =>
              exact deposit_new_finish_consistent cfg _ collection _ dep _
                now (ingest_consistent extract kind _ collection
                  (dep.slug.getD freshId) _ dep.metadata_relevant hB)
  | replaceOp md5 extract oid dep now =>
    simp only [ServerOp.apply]
    cases hc : check_deposit_errors md5 cfg dep with
    | error e => simp only [replace, hc]; exact hst
    | ok o =>
      cases o with
      | some er => simp only [replace, hc]; exact hst
      | none =>
        simp only [replace, hc]
        cases hio : URIManager.interpret_oid oid with
        | none => exact hst
        | some p =>
          obtain ⟨collection, id⟩ := p
          simp only
          cases hex : oidExists st collection id with
          | false => exact hst
          | true =>
            rw [if_neg (by simp)]
            have h1 : storeConsistent
                (DAO.remove_content st collection id dep.metadata_relevant) :=
              updateContainer_consistent st collection id _ hst
                (fun cont _ => Or.inl ⟨rfl, rfl⟩)
            cases hbody : dep.content with
            | none => exact h1
            | some body =>
              have hB : storeConsistent (DAO.store_content
                  (DAO.remove_content st collection id dep.metadata_relevant)
                  collection id body dep.filename now).1 :=
                updateContainer_consistent _ collection id _ h1
                  (fun cont hc => hc)
              cases hlk : cfg.package_ingesters.lookup dep.packaging with
              | none => exact hB
              | some kind =>
                simp only
                exact replace_tail_consistent
                  (ingest extract kind
                    (DAO.store_content (DAO.remove_content st collection id
                      dep.metadata_relevant) collection id body dep.filename
                      now).1
                    collection id
                    (DAO.store_content (DAO.remove_content st collection id
                      dep.metadata_relevant) collection id body dep.filename
                      now).2
                    dep.metadata_relevant)
                  collection id dep
                  { Statement.original_deposit
                      { aggregation_uri := some (URIManager.agg_uri
                          cfg.base_url collection id),
                        rem_uri := some (URIManager.edit_uri cfg.base_url
                          collection id) }
                      (some (URIManager.part_uri cfg.base_url collection id
                        (DAO.store_content (DAO.remove_content st collection
                          id dep.metadata_relevant) collection id body
                          dep.filename now).2))
                      (some now) dep.packaging
                      (dep.auth.bind fun a => a.byUser)
                      (dep.auth.bind fun a => a.obo) with
                    in_progress := dep.in_progress }
                  (ingest_consistent extract kind _ collection id
                    (DAO.store_content (DAO.remove_content st collection id
                      dep.metadata_relevant) collection id body dep.filename
                      now).2
                    dep.metadata_relevant hB)
  | addContent md5 oid dep now =>
    simp only [ServerOp.apply]
    cases hc : check_deposit_errors md5 cfg dep with
    | error e => simp only [add_content, hc]; exact hst
    | ok o =>
      cases o with
      | some er => simp only [add_content, hc]; exact hst
      | none =>
        simp only [add_content, hc]
        cases hio : URIManager.interpret_oid oid with
        | none => exact hst
        | some p =>
          obtain ⟨collection, id⟩ := p
          simp only
          cases hex : oidExists st collection id with
          | false => exact hst
          | true =>
            rw [if_neg (by simp)]
            cases hbody : dep.content with
            | none =>
              simp only
              exact new_finish_tail_consistent st collection id dep
                { aggregation_uri :=
                    some (URIManager.agg_uri cfg.base_url collection id),
                  rem_uri :=
                    some (URIManager.edit_uri cfg.base_url collection id),
                  original_deposits := [], in_progress := dep.in_progress }
                (URIManager.edit_uri cfg.base_url collection id) hst
            | some body =>
              simp only
              have hB : storeConsistent (DAO.store_content st collection id
                  body dep.filename now).1 :=
                updateContainer_consistent _ collection id _ hst
                  (fun cont hc => hc)
              exact new_finish_tail_consistent
                (DAO.store_content st collection id body dep.filename now).1
                collection id dep
                { Statement.original_deposit
                    { aggregation_uri :=
                        some (URIManager.agg_uri cfg.base_url collection id),
                      rem_uri :=
                        some (URIManager.edit_uri cfg.base_url collection
                          id) }
                    (some (URIManager.part_uri cfg.base_url collection id
                      (DAO.store_content st collection id body dep.filename
                        now).2))
                    (some now) dep.packaging
                    (dep.auth.bind fun a => a.byUser)
                    (dep.auth.bind fun a => a.obo) with
                  in_progress := dep.in_progress }
                (URIManager.edit_uri cfg.base_url collection id) hB
  | depositExisting md5 extract oid dep now =>
    simp only [ServerOp.apply]
    cases hc : check_deposit_errors md5 cfg dep with
    | error e => simp only [deposit_existing, hc]; exact hst
    | ok o =>
      cases o with
      | some er => simp only [deposit_existing, hc]; exact hst
      | none =>
        simp only [deposit_existing, hc]
        cases hio : URIManager.interpret_oid oid with
        | none => exact hst
        | some p =>
          obtain ⟨collection, id⟩ := p
          simp only
          cases hex : oidExists st collection id with
          | false => exact hst
          | true =>
            rw [if_neg (by simp)]
            cases hls : DAO.load_statement st collection id with
            | error e => exact hst
            | ok s0 =>
              have hA : storeConsistent (match dep.atom with
                  | some a => DAO.store_atom st collection id a
                  | none => st) := by
                cases dep.atom with
                | none => exact hst
                | some a =>
                  exact updateContainer_consistent st collection id _ hst
                    (fun cont hc => hc)
              cases hbody : dep.content with
              | none =>
                exact deposit_existing_finish_consistent _ collection id dep
                  s0 hA
              | some body =>
                have hB : storeConsistent (DAO.store_content
                    (match dep.atom with
                      | some a => DAO.store_atom st collection id a
                      | none => st)
                    collection id body dep.filename now).1 :=
                  updateContainer_consistent _ collection id _ hA
                    (fun cont hc => hc)
                cases hlk : cfg.package_ingesters.lookup dep.packaging with
                | none =>
                  simp only
                  exact existing_tail_consistent _ collection id dep _ hB
                | some kind =>
                  simp only
                  exact existing_tail_consistent _ collection id dep _
                    (ingest_consistent extract kind _ collection id _
                      dep.metadata_relevant hB)
  | updateMetadata oid dep =>
    simp only [ServerOp.apply]
    cases hme : check_mediated_error cfg dep with
    | some er => simp only [update_metadata, hme]; exact hst
    | none =>
      simp only [update_metadata, hme]
      cases hio : URIManager.interpret_oid oid with
      | none => exact hst
      | some p =>
        obtain ⟨collection, id⟩ := p
        simp only
        cases hex : oidExists st collection id with
        | false => exact hst
        | true =>
          rw [if_neg (by simp)]
          cases hatom : dep.atom with
          | none => exact hst
          | some a =>
            simp only
            have h2 : storeConsistent (DAO.store_atom st collection id a) :=
              updateContainer_consistent st collection id _ hst
                (fun cont hc => hc)
            cases hls : DAO.load_statement
                (DAO.store_atom st collection id a) collection id with
            | error e => exact h2
            | ok s0 =>
              simp only
              cases hdr : deposit_receipt collection id s0 none with
              | none => exact h2
              | some receipt =>
                exact updateContainer_consistent _ collection id _ h2
                  (fun cont hc => hc)
  | deleteContent oid del =>
    simp only [ServerOp.apply]
    cases hde : check_delete_errors cfg del with
    | some er => simp only [delete_content, hde]; exact hst
    | none =>
      simp only [delete_content, hde]
      cases hio : URIManager.interpret_oid oid with
      | none => exact hst
      | some p =>
        obtain ⟨collection, id⟩ := p
        simp only
        cases hex : oidExists st collection id with
        | false => exact hst
        | true =>
          rw [if_neg (by simp)]
          exact delete_tail_consistent
            (DAO.remove_content st collection id del.metadata_relevant)
            collection id
            { aggregation_uri :=
                some (URIManager.agg_uri cfg.base_url collection id),
              rem_uri :=
                some (URIManager.edit_uri cfg.base_url collection id),
              in_progress := del.in_progress }
            (updateContainer_consistent st collection id _ hst
              (fun cont _ => Or.inl ⟨rfl, rfl⟩))
  | deleteContainer oid del =>
    simp only [ServerOp.apply]
    cases hde : check_delete_errors cfg del with
    | some er => simp only [delete_container, hde]; exact hst
    | none =>
      simp only [delete_container, hde]
      cases hio : URIManager.interpret_oid oid with
      | none => exact hst
      | some p =>
        obtain ⟨collection, id⟩ := p
        simp only
        cases hex : oidExists st collection id with
        | false => exact hst
        | true =>
          rw [if_neg (by simp)]
          exact remove_container_consistent st collection id hst

/-- Claim C10, applied to a fresh deposit into an empty store (which is
trivially consistent). -/
theorem C10_statement_consistency_witness :
    storeConsistent (ServerOp.apply {} ⟨["col"], fun _ _ => none⟩
      (.depositNew (fun _ => "SUM") (fun _ => []) "col"
        { in_progress := true } 0 "id")) :=
  C10_statement_consistency {} ⟨["col"], fun _ _ => none⟩
    (.depositNew (fun _ => "SUM") (fun _ => []) "col"
      { in_progress := true } 0 "id")
    (fun _ _ _ hg => Option.noConfusion hg)

end Sss

end SSS
